import Mathlib

/-!
Verification of the petfinder data-collector script (`main.py`).

The script's records are Python/JSON values; we embed them as the nested
inductive `JVal`.  Python operations that can raise are embedded as
`Except PErr`-valued functions; operations that cannot raise are pure.
-/

set_option maxHeartbeats 1000000

namespace Petfinder

/-- A Python/JSON value.  Dictionaries are association lists with string
keys (the script only builds and reads string-keyed dictionaries);
floating point numbers do not occur in the modelled code paths. -/
inductive JVal where
  | null
  | bool (b : Bool)
  | int (n : Int)
  | str (s : String)
  | list (xs : List JVal)
  | obj (kvs : List (String × JVal))

mutual

def JVal.decEq : (a b : JVal) → Decidable (a = b)
  | .null, .null => isTrue rfl
  | .bool a, .bool b =>
    match inferInstanceAs (Decidable (a = b)) with
    | isTrue h => isTrue (by rw [h])
    | isFalse h => isFalse (by intro hc; injection hc; contradiction)
  | .int a, .int b =>
    match inferInstanceAs (Decidable (a = b)) with
    | isTrue h => isTrue (by rw [h])
    | isFalse h => isFalse (by intro hc; injection hc; contradiction)
  | .str a, .str b =>
    match inferInstanceAs (Decidable (a = b)) with
    | isTrue h => isTrue (by rw [h])
    | isFalse h => isFalse (by intro hc; injection hc; contradiction)
  | .list a, .list b =>
    match JVal.decEqList a b with
    | isTrue h => isTrue (by rw [h])
    | isFalse h => isFalse (by intro hc; injection hc; contradiction)
  | .obj a, .obj b =>
    match JVal.decEqKVList a b with
    | isTrue h => isTrue (by rw [h])
    | isFalse h => isFalse (by intro hc; injection hc; contradiction)
  | .null, .bool _ | .null, .int _ | .null, .str _ | .null, .list _ | .null, .obj _
  | .bool _, .null | .bool _, .int _ | .bool _, .str _ | .bool _, .list _ | .bool _, .obj _
  | .int _, .null | .int _, .bool _ | .int _, .str _ | .int _, .list _ | .int _, .obj _
  | .str _, .null | .str _, .bool _ | .str _, .int _ | .str _, .list _ | .str _, .obj _
  | .list _, .null | .list _, .bool _ | .list _, .int _ | .list _, .str _ | .list _, .obj _
  | .obj _, .null | .obj _, .bool _ | .obj _, .int _ | .obj _, .str _ | .obj _, .list _ =>
    isFalse (by intro hc; exact JVal.noConfusion hc)

def JVal.decEqList : (a b : List JVal) → Decidable (a = b)
  | [], [] => isTrue rfl
  | _ :: _, [] => isFalse (by intro hc; exact List.noConfusion hc)
  | [], _ :: _ => isFalse (by intro hc; exact List.noConfusion hc)
  | x :: xs, y :: ys =>
    match JVal.decEq x y, JVal.decEqList xs ys with
    | isTrue h₁, isTrue h₂ => isTrue (by rw [h₁, h₂])
    | isFalse h₁, _ => isFalse (by intro hc; injection hc; contradiction)
    | _, isFalse h₂ => isFalse (by intro hc; injection hc; contradiction)

def JVal.decEqKVList : (a b : List (String × JVal)) → Decidable (a = b)
  | [], [] => isTrue rfl
  | _ :: _, [] => isFalse (by intro hc; exact List.noConfusion hc)
  | [], _ :: _ => isFalse (by intro hc; exact List.noConfusion hc)
  | (k, v) :: xs, (l, w) :: ys =>
    match inferInstanceAs (Decidable (k = l)), JVal.decEq v w, JVal.decEqKVList xs ys with
    | isTrue h₁, isTrue h₂, isTrue h₃ => isTrue (by rw [h₁, h₂, h₃])
    | isFalse h₁, _, _ =>
      isFalse (by intro hc; injection hc with hp _; injection hp; contradiction)
    | _, isFalse h₂, _ =>
      isFalse (by intro hc; injection hc with hp _; injection hp; contradiction)
    | _, _, isFalse h₃ => isFalse (by intro hc; injection hc; contradiction)

end

instance : DecidableEq JVal := JVal.decEq

/-- Python exceptions that the modelled code can raise. -/
inductive PErr where
  | attributeError
  | typeError
  | keyError
  | valueError
  | indexError
  | missingInput
  | authError
deriving DecidableEq

theorem ok_bind {ε α β : Type} (a : α) (f : α → Except ε β) :
    (Except.ok a >>= f) = f a := rfl

theorem error_bind {ε α β : Type} (e : ε) (f : α → Except ε β) :
    ((Except.error e : Except ε α) >>= f) = .error e := rfl

theorem pure_bind_except {ε α β : Type} (a : α) (f : α → Except ε β) :
    ((pure a : Except ε α) >>= f) = f a := rfl

/-- Python truthiness of a value (`if x:`). -/
def truthy : JVal → Bool
  | .null => false
  | .bool b => b
  | .int n => n != 0
  | .str s => s != ""
  | .list xs => !xs.isEmpty
  | .obj kvs => !kvs.isEmpty

/-- `x or y` in Python: `x` if truthy, else `y`. -/
def pyOr (x y : JVal) : JVal := if truthy x then x else y

/-- Value of key `k` in an association list, `null` when absent
(the result of `d.get(k)` on a dictionary `d`). -/
def lookupJ (kvs : List (String × JVal)) (k : String) : JVal :=
  (kvs.lookup k).getD .null

/-- `v.get(k)`: dictionary lookup with `None` default; raises
`AttributeError` when `v` is not a dictionary. -/
def pyGet (v : JVal) (k : String) : Except PErr JVal :=
  match v with
  | .obj kvs => .ok (lookupJ kvs k)
  | _ => .error .attributeError

/-- `v.get(k, d)`: dictionary lookup with explicit default. -/
def pyGetD (v : JVal) (k : String) (d : JVal) : Except PErr JVal :=
  match v with
  | .obj kvs => .ok ((kvs.lookup k).getD d)
  | _ => .error .attributeError

/-- `v[k]` for a string key: raises `KeyError` when the key is absent,
`TypeError` when `v` is not a dictionary. -/
def pyIndex (v : JVal) (k : String) : Except PErr JVal :=
  match v with
  | .obj kvs =>
    match kvs.lookup k with
    | some x => .ok x
    | none => .error .keyError
  | _ => .error .typeError

/-- Iterating a Python value (`for x in v`): lists yield elements,
strings yield one-character strings, dictionaries yield their keys;
other values raise `TypeError`. -/
def pyIter (v : JVal) : Except PErr (List JVal) :=
  match v with
  | .list xs => .ok xs
  | .str s => .ok (s.toList.map fun c => .str (String.singleton c))
  | .obj kvs => .ok (kvs.map fun p => .str p.1)
  | _ => .error .typeError

/-!
## Paginated fetching (`fetch_animals`, `fetch_organizations_by_location`)

Both functions run the same loop over pages `1 .. pages`.  The HTTP layer
is abstracted by `resp : Nat → Option (List JVal)`: `resp p = none` models
`safe_get` returning a falsy body for page `p` (`if not data: break`), and
`resp p = some recs` models a truthy body whose record list
(`data.get("animals", [])` resp. `data.get("organizations", [])`) is `recs`.
-/

/-- The shared page loop of `fetch_animals` and
`fetch_organizations_by_location`: starting at `page` with `fuel` pages
remaining and accumulator `acc`, stop on a falsy body, an empty record
list, or a record list shorter than `limit` (the short page's records are
kept); otherwise accumulate and continue. -/
def fetchPages (resp : Nat → Option (List JVal)) (limit : Nat) :
    Nat → Nat → List JVal → List JVal
  | _, 0, acc => acc
  | page, fuel + 1, acc =>
    match resp page with
    | none => acc
    | some recs =>
      if recs.isEmpty then acc
      else if recs.length < limit then acc ++ recs
      else fetchPages resp limit (page + 1) fuel (acc ++ recs)

/-- `fetch_animals(token, limit=LIMIT, pages=MAX_PAGES)`; the bearer token
only feeds the abstracted HTTP layer. -/
def fetch_animals (resp : Nat → Option (List JVal)) (limit : Nat := 100)
    (pages : Nat := 100) : List JVal :=
  fetchPages resp limit 1 pages []

/-- `fetch_organizations_by_location(token, location, limit=100, pages=10)`. -/
def fetch_organizations_by_location (resp : Nat → Option (List JVal))
    (limit : Nat := 100) (pages : Nat := 10) : List JVal :=
  fetchPages resp limit 1 pages []

/-- Spec-side stop condition for page `p`: the retrying GET returned a
falsy body, or the page's record list is empty, or it is shorter than
`limit`. -/
def stopCond (resp : Nat → Option (List JVal)) (limit p : Nat) : Bool :=
  match resp p with
  | none => true
  | some recs => recs.isEmpty || recs.length < limit

/-- The records page `p` contributes to the accumulated result. -/
def pageRecords (resp : Nat → Option (List JVal)) (p : Nat) : List JVal :=
  (resp p).getD []

/-- Number of pages the loop consumes when it starts at page `p` with
`fuel` pages remaining: it advances until the first page satisfying
`stopCond` or until the page budget runs out. -/
def stopCount (resp : Nat → Option (List JVal)) (limit : Nat) :
    Nat → Nat → Nat
  | _, 0 => 0
  | p, fuel + 1 => if stopCond resp limit p then 1 else 1 + stopCount resp limit (p + 1) fuel

theorem fetchPages_eq_spec (resp : Nat → Option (List JVal)) (limit : Nat) :
    ∀ fuel page acc, fetchPages resp limit page fuel acc =
      acc ++ ((List.range' page (stopCount resp limit page fuel)).map
        (pageRecords resp)).flatten := by
  intro fuel
  induction fuel with
  | zero => intro page acc; simp [fetchPages, stopCount]
  | succ fuel ih =>
    intro page acc
    rw [fetchPages, stopCount]
    cases hr : resp page with
    | none =>
      have hc : stopCond resp limit page = true := by simp [stopCond, hr]
      simp only [hr, hc, if_true]
      simp [pageRecords, hr]
    | some recs =>
      by_cases he : recs.isEmpty
      · have hc : stopCond resp limit page = true := by simp [stopCond, hr, he]
        have hrecs : recs = [] := List.isEmpty_iff.mp he
        simp only [hr, hc, he, if_true]
        simp [pageRecords, hr, hrecs]
      · by_cases hl : recs.length < limit
        · have hc : stopCond resp limit page = true := by
            simp [stopCond, hr, hl]
          simp only [hr, hc, he, hl, if_true, if_false, Bool.false_eq_true]
          simp [pageRecords, hr]
        · have hc : stopCond resp limit page = false := by
            simp [stopCond, hr, he, hl]
          simp only [hr, hc, he, hl, if_false, Bool.false_eq_true]
          rw [Nat.add_comm 1 (stopCount resp limit (page + 1) fuel), List.range'_succ]
          rw [ih]
          simp [pageRecords, hr, List.append_assoc]

theorem stopCount_le (resp : Nat → Option (List JVal)) (limit : Nat) :
    ∀ fuel page, stopCount resp limit page fuel ≤ fuel := by
  intro fuel
  induction fuel with
  | zero => intro page; simp [stopCount]
  | succ fuel ih =>
    intro page
    rw [stopCount]
    split
    · omega
    · have := ih (page + 1); omega

theorem stopCount_pos (resp : Nat → Option (List JVal)) (limit : Nat)
    (fuel page : Nat) (h : 1 ≤ fuel) :
    1 ≤ stopCount resp limit page fuel := by
  cases fuel with
  | zero => omega
  | succ fuel => rw [stopCount]; split <;> omega

theorem stopCount_not_stopped (resp : Nat → Option (List JVal)) (limit : Nat) :
    ∀ fuel page q, page ≤ q → q + 1 < page + stopCount resp limit page fuel →
      stopCond resp limit q = false := by
  intro fuel
  induction fuel with
  | zero => intro page q _ h2; simp [stopCount] at h2; omega
  | succ fuel ih =>
    intro page q h1 h2
    rw [stopCount] at h2
    by_cases hc : stopCond resp limit page
    · rw [if_pos hc] at h2; omega
    · rw [if_neg hc] at h2
      rcases Nat.eq_or_lt_of_le h1 with heq | hlt
      · subst heq; simpa using hc
      · exact ih (page + 1) q hlt (by omega)

theorem stopCount_last (resp : Nat → Option (List JVal)) (limit : Nat) :
    ∀ fuel page, 1 ≤ fuel →
      stopCond resp limit (page + stopCount resp limit page fuel - 1) = true ∨
      stopCount resp limit page fuel = fuel := by
  intro fuel
  induction fuel with
  | zero => intro page h; omega
  | succ fuel ih =>
    intro page _
    rw [stopCount]
    by_cases hc : stopCond resp limit page
    · left
      rw [if_pos hc]
      simpa using hc
    · rw [if_neg hc]
      cases fuel with
      | zero => right; simp [stopCount]
      | succ fuel =>
        rcases ih (page + 1) (by omega) with h | h
        · left
          have harg : page + (1 + stopCount resp limit (page + 1) (fuel + 1)) - 1 =
              page + 1 + stopCount resp limit (page + 1) (fuel + 1) - 1 := by omega
          rw [harg]
          exact h
        · right
          omega

/-- C1: for every sequence of page responses, the paginated fetch
(`fetch_animals` / `fetch_organizations_by_location`) stops exactly at the
first page for which the retrying GET returned a falsy body, the page's
record list is empty, the page's record list is shorter than `page_size`,
or `max_pages` has been reached; and it returns the concatenation of all
record lists accumulated up to that point, never discarding them.
`stopCount resp limit 1 pages` is the page the loop stops at. -/
theorem claim_C1_pagination (resp : Nat → Option (List JVal)) (limit pages : Nat) :
    fetch_animals resp limit pages =
      ((List.range' 1 (stopCount resp limit 1 pages)).map (pageRecords resp)).flatten
    ∧ fetch_organizations_by_location resp limit pages =
      ((List.range' 1 (stopCount resp limit 1 pages)).map (pageRecords resp)).flatten
    ∧ stopCount resp limit 1 pages ≤ pages
    ∧ (∀ q, 1 ≤ q → q < stopCount resp limit 1 pages → stopCond resp limit q = false)
    ∧ (1 ≤ pages → stopCond resp limit (stopCount resp limit 1 pages) = true
        ∨ stopCount resp limit 1 pages = pages) := by
  refine ⟨?_, ?_, ?_, ?_, ?_⟩
  · rw [fetch_animals, fetchPages_eq_spec]; simp
  · rw [fetch_organizations_by_location, fetchPages_eq_spec]; simp
  · exact stopCount_le resp limit pages 1
  · intro q h1 h2
    exact stopCount_not_stopped resp limit pages 1 q h1 (by omega)
  · intro hp
    have h := stopCount_last resp limit pages 1 hp
    have harg : 1 + stopCount resp limit 1 pages - 1 = stopCount resp limit 1 pages := by
      omega
    rw [harg] at h
    exact h

/-- Example page responses: page 1 full (2 records at page size 2),
page 2 short (1 record), later pages empty. -/
def exRespC1 : Nat → Option (List JVal) := fun p =>
  if p = 1 then some [.int 1, .int 2]
  else if p = 2 then some [.int 3]
  else some []

theorem claim_C1_pagination_witness :
    fetch_animals exRespC1 2 5 = [.int 1, .int 2, .int 3]
    ∧ stopCond exRespC1 2 1 = false
    ∧ (stopCond exRespC1 2 (stopCount exRespC1 2 1 5) = true
        ∨ stopCount exRespC1 2 1 5 = 5) := by
  have h := claim_C1_pagination exRespC1 2 5
  exact ⟨h.1.trans (by rfl), h.2.2.2.1 1 (by decide) (by decide),
    h.2.2.2.2 (by decide)⟩

/-!
## Retrying GET (`safe_get`)

`safe_get(url, headers, params, retries=5)` issues up to `retries`
attempts.  The HTTP layer is abstracted by `responses : Nat → HResp`
giving the response of each attempt.  The model returns the parsed body
(`none` for Python `None`) together with the list of sleep durations
performed, in order, so that the backoff behaviour is observable.
-/

/-- An HTTP response as seen by `safe_get`: status code, optional integer
`Retry-After` header, parsed JSON body. -/
structure HResp where
  status : Nat
  retryAfter : Option Nat
  body : JVal

/-- The attempt loop of `safe_get`: on 429 sleep `Retry-After` (default
10) and retry, on 502/503/504 sleep 5 and retry, on any other status
≥ 400 `raise_for_status` raises `HTTPError`, which is caught and breaks
the loop returning `None`; otherwise return the body.  Every retry,
including a 429 retry, consumes one loop iteration
(`for attempt in range(retries)`). -/
def safeGetGo (responses : Nat → HResp) :
    Nat → Nat → List Nat → Option JVal × List Nat
  | _, 0, sleeps => (none, sleeps.reverse)
  | attempt, fuel + 1, sleeps =>
    if (responses attempt).status = 429 then
      safeGetGo responses (attempt + 1) fuel
        ((responses attempt).retryAfter.getD 10 :: sleeps)
    else if (responses attempt).status = 502 ∨ (responses attempt).status = 503 ∨
        (responses attempt).status = 504 then
      safeGetGo responses (attempt + 1) fuel (5 :: sleeps)
    else if 400 ≤ (responses attempt).status then (none, sleeps.reverse)
    else (some (responses attempt).body, sleeps.reverse)

/-- `safe_get(url, headers, params, retries=5)`. -/
def safe_get (responses : Nat → HResp) (retries : Nat := 5) :
    Option JVal × List Nat :=
  safeGetGo responses 0 retries []

/-- The sleep performed before retrying response `r`, or `none` when the
response is decisive (success or a non-retryable error). -/
def attemptSleep (r : HResp) : Option Nat :=
  if r.status = 429 then some (r.retryAfter.getD 10)
  else if r.status = 502 ∨ r.status = 503 ∨ r.status = 504 then some 5
  else none

/-- Index of the first decisive attempt in the window `[a, a + fuel)`,
if any. -/
def decisiveIdx (responses : Nat → HResp) : Nat → Nat → Option Nat
  | _, 0 => none
  | a, fuel + 1 =>
    if (attemptSleep (responses a)).isSome then decisiveIdx responses (a + 1) fuel
    else some a

/-- Sleep duration attempt `i` causes (0 is never used for retryable
responses). -/
def sleepOf (responses : Nat → HResp) (i : Nat) : Nat :=
  (attemptSleep (responses i)).getD 0

theorem decisiveIdx_ge (responses : Nat → HResp) :
    ∀ fuel a d, decisiveIdx responses a fuel = some d → a ≤ d := by
  intro fuel
  induction fuel with
  | zero => intro a d h; simp [decisiveIdx] at h
  | succ fuel ih =>
    intro a d h
    rw [decisiveIdx] at h
    split at h
    · have := ih (a + 1) d h; omega
    · injection h with h; omega

theorem decisiveIdx_before (responses : Nat → HResp) :
    ∀ fuel a d, decisiveIdx responses a fuel = some d →
      ∀ i, a ≤ i → i < d → (attemptSleep (responses i)).isSome = true := by
  intro fuel
  induction fuel with
  | zero => intro a d h; simp [decisiveIdx] at h
  | succ fuel ih =>
    intro a d h i h1 h2
    rw [decisiveIdx] at h
    split at h
    · rcases Nat.eq_or_lt_of_le h1 with heq | hlt
      · subst heq; assumption
      · exact ih (a + 1) d h i hlt h2
    · injection h with h; omega

theorem decisiveIdx_at (responses : Nat → HResp) :
    ∀ fuel a d, decisiveIdx responses a fuel = some d →
      attemptSleep (responses d) = none := by
  intro fuel
  induction fuel with
  | zero => intro a d h; simp [decisiveIdx] at h
  | succ fuel ih =>
    intro a d h
    rw [decisiveIdx] at h
    split at h
    · exact ih (a + 1) d h
    · injection h with h
      subst h
      rename_i hns
      exact Option.not_isSome_iff_eq_none.mp (by simpa using hns)

theorem safeGetGo_decisive (responses : Nat → HResp) :
    ∀ fuel a sleeps d, decisiveIdx responses a fuel = some d →
      safeGetGo responses a fuel sleeps =
        ((if (responses d).status < 400 then some (responses d).body else none),
         sleeps.reverse ++ (List.range' a (d - a)).map (sleepOf responses)) := by
  intro fuel
  induction fuel with
  | zero => intro a sleeps d h; simp [decisiveIdx] at h
  | succ fuel ih =>
    intro a sleeps d h
    rw [decisiveIdx] at h
    rw [safeGetGo]
    by_cases h429 : (responses a).status = 429
    · have hs : (attemptSleep (responses a)).isSome = true := by
        simp [attemptSleep, h429]
      rw [if_pos hs] at h
      have hd : a + 1 ≤ d := decisiveIdx_ge responses fuel (a + 1) d h
      rw [if_pos h429, ih (a + 1) _ d h]
      rw [List.reverse_cons, List.append_assoc]
      have harg : d - a = (d - (a + 1)) + 1 := by omega
      rw [harg, List.range'_succ]
      simp [sleepOf, attemptSleep, h429]
    · by_cases h5xx : (responses a).status = 502 ∨ (responses a).status = 503 ∨
          (responses a).status = 504
      · have hs : (attemptSleep (responses a)).isSome = true := by
          rcases h5xx with h | h | h <;> simp [attemptSleep, h429, h]
        rw [if_pos hs] at h
        have hd : a + 1 ≤ d := decisiveIdx_ge responses fuel (a + 1) d h
        rw [if_neg h429, if_pos h5xx, ih (a + 1) _ d h]
        rw [List.reverse_cons, List.append_assoc]
        have harg : d - a = (d - (a + 1)) + 1 := by omega
        rw [harg, List.range'_succ]
        have hsleep : sleepOf responses a = 5 := by
          rcases h5xx with h' | h' | h' <;> simp [sleepOf, attemptSleep, h429, h']
        simp [hsleep]
      · have hs : (attemptSleep (responses a)).isSome = false := by
          simp [attemptSleep, h429, h5xx]
        rw [if_neg (by simp [hs])] at h
        injection h with h
        subst h
        rw [if_neg h429, if_neg h5xx]
        have hz : a - a = 0 := by omega
        rw [hz]
        by_cases h400 : 400 ≤ (responses a).status
        · rw [if_pos h400, if_neg (by omega)]
          simp
        · rw [if_neg h400, if_pos (by omega)]
          simp

theorem safeGetGo_exhausted (responses : Nat → HResp) :
    ∀ fuel a sleeps, decisiveIdx responses a fuel = none →
      safeGetGo responses a fuel sleeps =
        (none, sleeps.reverse ++ (List.range' a fuel).map (sleepOf responses)) := by
  intro fuel
  induction fuel with
  | zero => intro a sleeps _; simp [safeGetGo]
  | succ fuel ih =>
    intro a sleeps h
    rw [decisiveIdx] at h
    rw [safeGetGo]
    by_cases hs : (attemptSleep (responses a)).isSome = true
    · rw [if_pos hs] at h
      rw [List.range'_succ]
      by_cases h429 : (responses a).status = 429
      · rw [if_pos h429, ih (a + 1) _ h]
        rw [List.reverse_cons, List.append_assoc]
        simp [sleepOf, attemptSleep, h429]
      · by_cases h5xx : (responses a).status = 502 ∨ (responses a).status = 503 ∨
            (responses a).status = 504
        · rw [if_neg h429, if_pos h5xx, ih (a + 1) _ h]
          rw [List.reverse_cons, List.append_assoc]
          have hsleep : sleepOf responses a = 5 := by
            rcases h5xx with h' | h' | h' <;> simp [sleepOf, attemptSleep, h429, h']
          simp [hsleep]
        · exact absurd hs (by simp [attemptSleep, h429, h5xx])
    · rw [if_neg hs] at h
      exact absurd h (by simp)

/-- The responses see only rate limiting before the first success:
attempts `0, …, k-1` return HTTP 429 and attempt `k` returns HTTP 200. -/
def onlyRateLimitedThenOk (responses : Nat → HResp) (k : Nat) : Prop :=
  (∀ i, i < k → (responses i).status = 429) ∧ (responses k).status = 200

/-- C2 as stated: a 429 is retried *without consuming the fixed retry
budget*, so whenever every attempt before the first success is a 429, the
success is always reached and its body returned. -/
def safeGetClaimNoBudget : Prop :=
  ∀ responses k retries, 1 ≤ retries → onlyRateLimitedThenOk responses k →
    (safe_get responses retries).1 = some ((responses k).body)

/-- Five consecutive 429 responses, then a success. -/
def exRespC2 : Nat → HResp := fun a =>
  if a < 5 then ⟨429, some 1, .null⟩ else ⟨200, none, .str "ok"⟩

/-- C2 counterexample: in the code a 429 retry consumes one iteration of
`for attempt in range(retries)`, so five consecutive 429s exhaust the
default budget of 5 and `safe_get` returns `None` although attempt 5
would have succeeded. -/
theorem claim_C2_counterexample : ¬ safeGetClaimNoBudget := by
  intro h
  have hc := h exRespC2 5 5 (by decide)
    ⟨fun i hi => by
      have : i < 5 := hi
      simp [exRespC2, this], by simp [exRespC2]⟩
  have hval : (safe_get exRespC2 5).1 = none := by decide
  rw [hval] at hc
  exact Option.noConfusion hc

/-- C2 amended: up to `retries` attempts, `safe_get` sleeps the
server-supplied `Retry-After` interval (default 10) on a 429 and a fixed
5 seconds on 502/503/504, then retries — every retry, 429 included,
consuming one attempt of the budget; at the first attempt `d` with any
other status it returns the body if the status is a success (< 400) and
`None` otherwise (`HTTPError` is caught); if all `retries` attempts are
retryable the budget is exhausted and it returns `None`. -/
theorem claim_C2_safe_get_amended (responses : Nat → HResp) (retries : Nat) :
    (∀ d, decisiveIdx responses 0 retries = some d →
      safe_get responses retries =
        ((if (responses d).status < 400 then some (responses d).body else none),
         (List.range d).map (sleepOf responses))
      ∧ (∀ i, i < d → (attemptSleep (responses i)).isSome = true)
      ∧ attemptSleep (responses d) = none)
    ∧ (decisiveIdx responses 0 retries = none →
        safe_get responses retries =
          (none, (List.range retries).map (sleepOf responses)))
    ∧ (∀ r : HResp, r.status = 429 → attemptSleep r = some (r.retryAfter.getD 10))
    ∧ (∀ r : HResp, r.status = 502 ∨ r.status = 503 ∨ r.status = 504 →
        attemptSleep r = some 5) := by
  refine ⟨?_, ?_, ?_, ?_⟩
  · intro d hd
    refine ⟨?_, ?_, decisiveIdx_at responses retries 0 d hd⟩
    · rw [safe_get, safeGetGo_decisive responses retries 0 [] d hd]
      rw [List.range_eq_range']
      simp
    · intro i hi
      exact decisiveIdx_before responses retries 0 d hd i (Nat.zero_le i) hi
  · intro hd
    rw [safe_get, safeGetGo_exhausted responses retries 0 [] hd]
    rw [List.range_eq_range']
    simp
  · intro r h429
    simp [attemptSleep, h429]
  · intro r h5xx
    have h429 : r.status ≠ 429 := by rcases h5xx with h | h | h <;> omega
    rcases h5xx with h | h | h <;> simp [attemptSleep, h429, h]

/-- One 502 then a success. -/
def exRespC2b : Nat → HResp := fun a =>
  if a = 0 then ⟨502, none, .null⟩ else ⟨200, none, .str "ok"⟩

theorem claim_C2_witness :
    safe_get exRespC2b 5 = (some (.str "ok"), [5])
    ∧ safe_get exRespC2 5 = (none, [1, 1, 1, 1, 1]) := by
  have h1 := ((claim_C2_safe_get_amended exRespC2b 5).1 1 (by decide)).1
  have h2 := (claim_C2_safe_get_amended exRespC2 5).2.1 (by decide)
  exact ⟨h1.trans (by decide), h2.trans (by decide)⟩

/-!
## Record normalization (`clean_animal_data`, `clean_organization_data`)
-/

/-- `[p.get("medium") for p in photos if isinstance(p, dict) and
p.get("medium")]`: keep the `"medium"` value of each dictionary entry
whose `"medium"` value is truthy. -/
def photoMediums (ps : List JVal) : List JVal :=
  ps.filterMap fun p =>
    match p with
    | .obj kvs => if truthy (lookupJ kvs "medium") then some (lookupJ kvs "medium") else none
    | _ => none

/-- The body of `clean_animal_data` for one raw animal record. -/
def cleanAnimal (a : JVal) : Except PErr JVal := do
  let breeds := pyOr (← pyGet a "breeds") (.obj [])
  let attributes := pyOr (← pyGet a "attributes") (.obj [])
  let environment := pyOr (← pyGet a "environment") (.obj [])
  let photos := pyOr (← pyGet a "photos") (.list [])
  let primary_photo ← pyGet (pyOr (← pyGet a "primary_photo_cropped") (.obj [])) "medium"
  let photoElems ← pyIter photos
  pure (.obj [
    ("id", ← pyGet a "id"),
    ("name", ← pyGet a "name"),
    ("type", ← pyGet a "type"),
    ("species", ← pyGet a "species"),
    ("breeds", .obj [
      ("primary", ← pyGet breeds "primary"),
      ("secondary", ← pyGet breeds "secondary"),
      ("mixed", ← pyGet breeds "mixed")]),
    ("age", ← pyGet a "age"),
    ("gender", ← pyGet a "gender"),
    ("size", ← pyGet a "size"),
    ("coat", ← pyGet a "coat"),
    ("attributes", .obj [
      ("spayed_neutered", ← pyGet attributes "spayed_neutered"),
      ("house_trained", ← pyGet attributes "house_trained"),
      ("special_needs", ← pyGet attributes "special_needs"),
      ("shots_current", ← pyGet attributes "shots_current")]),
    ("environment", .obj [
      ("children", ← pyGet environment "children"),
      ("dogs", ← pyGet environment "dogs"),
      ("cats", ← pyGet environment "cats")]),
    ("tags", pyOr (← pyGet a "tags") (.list [])),
    ("description", ← pyGet a "description"),
    ("photos", .list (photoMediums photoElems)),
    ("primary_photo", primary_photo),
    ("status", ← pyGet a "status"),
    ("published_at", ← pyGet a "published_at"),
    ("status_changed_at", ← pyGet a "status_changed_at"),
    ("organization_id", ← pyGet a "organization_id"),
    ("url", ← pyGet a "url")])

/-- `clean_animal_data(animals)`. -/
def clean_animal_data (animals : List JVal) : Except PErr (List JVal) :=
  animals.mapM cleanAnimal

/-- The body of `clean_organization_data` for one raw organization
record.  The representative photo is
`photos[0].get("medium") if photos and isinstance(photos[0], dict) else
None`. -/
def cleanOrganization (o : JVal) : Except PErr JVal := do
  let address := pyOr (← pyGet o "address") (.obj [])
  let adoption := pyOr (← pyGet o "adoption") (.obj [])
  let social := pyOr (← pyGet o "social_media") (.obj [])
  let photos := pyOr (← pyGet o "photos") (.list [])
  let photo ←
    if truthy photos then do
      let p₀ ←
        match photos with
        | .list (p :: _) => Except.ok p
        | .list [] => Except.error .indexError
        | .str s =>
          match s.toList with
          | c :: _ => Except.ok (.str (String.singleton c))
          | [] => Except.error .indexError
        | .obj _ => Except.error .keyError
        | _ => Except.error .typeError
      match p₀ with
      | .obj kvs => Except.ok (lookupJ kvs "medium")
      | _ => Except.ok .null
    else Except.ok JVal.null
  pure (.obj [
    ("id", ← pyGet o "id"),
    ("name", ← pyGet o "name"),
    ("email", ← pyGet o "email"),
    ("phone", ← pyGet o "phone"),
    ("address", .obj [
      ("city", ← pyGet address "city"),
      ("state", ← pyGet address "state"),
      ("postcode", ← pyGet address "postcode")]),
    ("url", ← pyGet o "url"),
    ("website", ← pyGet o "website"),
    ("mission_statement", ← pyGet o "mission_statement"),
    ("adoption", .obj [
      ("policy", ← pyGet adoption "policy"),
      ("url", ← pyGet adoption "url")]),
    ("social_media", .obj [
      ("facebook", ← pyGet social "facebook"),
      ("instagram", ← pyGet social "instagram")]),
    ("photo", photo)])

/-- `clean_organization_data(orgs)`. -/
def clean_organization_data (orgs : List JVal) : Except PErr (List JVal) :=
  orgs.mapM cleanOrganization

/-!
### Spec-side normalization defaults (for claim C5)
-/

/-- Spec reading of a nested object field: a missing or null nested
object behaves as the empty object. -/
def asObjKvs : Option JVal → List (String × JVal)
  | some (.obj l) => l
  | _ => []

/-- Spec reading of a nested list field: a missing or null list behaves
as the empty list. -/
def asListElems : Option JVal → List JVal
  | some (.list l) => l
  | _ => []

/-- A field value that is missing, null, or a nested object. -/
def objOrMissing : Option JVal → Bool
  | none | some .null | some (.obj _) => true
  | _ => false

/-- A field value that is missing, null, or a list. -/
def listOrMissing : Option JVal → Bool
  | none | some .null | some (.list _) => true
  | _ => false

/-- The raw animal record's nested fields are each missing, null, or of
their documented shape. -/
def rawAnimalOk (kvs : List (String × JVal)) : Bool :=
  objOrMissing (kvs.lookup "breeds") && objOrMissing (kvs.lookup "attributes") &&
  objOrMissing (kvs.lookup "environment") &&
  objOrMissing (kvs.lookup "primary_photo_cropped") &&
  listOrMissing (kvs.lookup "photos") && listOrMissing (kvs.lookup "tags")

/-- Modelled from the spec's words: the documented flat output shape,
with missing nested objects treated as empty objects, missing lists as
empty lists, the photo list reduced to its truthy `"medium"` URLs, and
absent scalars null. -/
def cleanAnimalSpec (kvs : List (String × JVal)) : JVal :=
  let breeds := asObjKvs (kvs.lookup "breeds")
  let attributes := asObjKvs (kvs.lookup "attributes")
  let environment := asObjKvs (kvs.lookup "environment")
  let cropped := asObjKvs (kvs.lookup "primary_photo_cropped")
  .obj [
    ("id", lookupJ kvs "id"),
    ("name", lookupJ kvs "name"),
    ("type", lookupJ kvs "type"),
    ("species", lookupJ kvs "species"),
    ("breeds", .obj [
      ("primary", lookupJ breeds "primary"),
      ("secondary", lookupJ breeds "secondary"),
      ("mixed", lookupJ breeds "mixed")]),
    ("age", lookupJ kvs "age"),
    ("gender", lookupJ kvs "gender"),
    ("size", lookupJ kvs "size"),
    ("coat", lookupJ kvs "coat"),
    ("attributes", .obj [
      ("spayed_neutered", lookupJ attributes "spayed_neutered"),
      ("house_trained", lookupJ attributes "house_trained"),
      ("special_needs", lookupJ attributes "special_needs"),
      ("shots_current", lookupJ attributes "shots_current")]),
    ("environment", .obj [
      ("children", lookupJ environment "children"),
      ("dogs", lookupJ environment "dogs"),
      ("cats", lookupJ environment "cats")]),
    ("tags", .list (asListElems (kvs.lookup "tags"))),
    ("description", lookupJ kvs "description"),
    ("photos", .list (photoMediums (asListElems (kvs.lookup "photos")))),
    ("primary_photo", lookupJ cropped "medium"),
    ("status", lookupJ kvs "status"),
    ("published_at", lookupJ kvs "published_at"),
    ("status_changed_at", lookupJ kvs "status_changed_at"),
    ("organization_id", lookupJ kvs "organization_id"),
    ("url", lookupJ kvs "url")]

theorem pyOr_obj_default (v : Option JVal) (h : objOrMissing v = true) :
    pyOr (v.getD .null) (.obj []) = .obj (asObjKvs v) := by
  match v with
  | none => rfl
  | some .null => rfl
  | some (.obj l) =>
    by_cases hl : l.isEmpty
    · have : l = [] := List.isEmpty_iff.mp hl
      subst this
      rfl
    · have : l ≠ [] := fun hc => hl (by simp [hc])
      simp [pyOr, truthy, asObjKvs, List.isEmpty_iff, this]
  | some (.bool _) | some (.int _) | some (.str _) | some (.list _) =>
    simp [objOrMissing] at h

theorem pyOr_list_default (v : Option JVal) (h : listOrMissing v = true) :
    pyOr (v.getD .null) (.list []) = .list (asListElems v) := by
  match v with
  | none => rfl
  | some .null => rfl
  | some (.list l) =>
    by_cases hl : l.isEmpty
    · have : l = [] := List.isEmpty_iff.mp hl
      subst this
      rfl
    · have : l ≠ [] := fun hc => hl (by simp [hc])
      simp [pyOr, truthy, asListElems, List.isEmpty_iff, this]
  | some (.bool _) | some (.int _) | some (.str _) | some (.obj _) =>
    simp [listOrMissing] at h

/-- Per-record version of claim C5. -/
theorem cleanAnimal_defaults (kvs : List (String × JVal))
    (h : rawAnimalOk kvs = true) :
    cleanAnimal (.obj kvs) = .ok (cleanAnimalSpec kvs) := by
  obtain ⟨⟨⟨⟨⟨h₁, h₂⟩, h₃⟩, h₄⟩, h₅⟩, h₆⟩ :
      ((((objOrMissing (kvs.lookup "breeds") = true ∧
          objOrMissing (kvs.lookup "attributes") = true) ∧
          objOrMissing (kvs.lookup "environment") = true) ∧
          objOrMissing (kvs.lookup "primary_photo_cropped") = true) ∧
          listOrMissing (kvs.lookup "photos") = true) ∧
          listOrMissing (kvs.lookup "tags") = true := by
    simpa [rawAnimalOk, Bool.and_eq_true, and_assoc] using h
  rw [cleanAnimal]
  simp only [pyGet, lookupJ, bind, Except.bind]
  rw [pyOr_obj_default _ h₁, pyOr_obj_default _ h₂, pyOr_obj_default _ h₃,
    pyOr_obj_default _ h₄, pyOr_list_default _ h₅, pyOr_list_default _ h₆]
  simp only [pyGet, pyIter, lookupJ, pure, Except.pure]
  simp [cleanAnimalSpec, lookupJ]

/-- C5: on every list of raw animal records whose nested fields
`breeds`, `attributes`, `environment`, `primary_photo_cropped`,
`photos`, `tags` are each missing, null, or of their documented shape
(in particular when any or all of them are missing or null),
`clean_animal_data` never raises and produces exactly the documented
defaults for every record: missing nested objects behave as empty
objects, missing lists become empty lists, the photo list becomes the
list of truthy `"medium"` URLs with non-object or URL-less entries
dropped, and absent scalars become null (`cleanAnimalSpec`). -/
theorem claim_C5_normalize_defaults (kvss : List (List (String × JVal)))
    (h : ∀ kvs ∈ kvss, rawAnimalOk kvs = true) :
    clean_animal_data (kvss.map .obj) = .ok (kvss.map cleanAnimalSpec) := by
  induction kvss with
  | nil => rfl
  | cons k ks ih =>
    have hk : rawAnimalOk k = true := h k (List.mem_cons_self k ks)
    have hks := ih fun kvs hm => h kvs (List.mem_cons_of_mem k hm)
    rw [clean_animal_data] at hks ⊢
    rw [List.map_cons, List.mapM_cons, cleanAnimal_defaults k hk, hks]
    rfl

/-- A raw animal record with every nested field missing. -/
def exRawAnimal : List (String × JVal) := [("id", .int 7), ("name", .str "Rex")]

theorem claim_C5_witness :
    clean_animal_data [.obj exRawAnimal] = .ok [.obj [
      ("id", .int 7),
      ("name", .str "Rex"),
      ("type", .null),
      ("species", .null),
      ("breeds", .obj [("primary", .null), ("secondary", .null), ("mixed", .null)]),
      ("age", .null),
      ("gender", .null),
      ("size", .null),
      ("coat", .null),
      ("attributes", .obj [("spayed_neutered", .null), ("house_trained", .null),
        ("special_needs", .null), ("shots_current", .null)]),
      ("environment", .obj [("children", .null), ("dogs", .null), ("cats", .null)]),
      ("tags", .list []),
      ("description", .null),
      ("photos", .list []),
      ("primary_photo", .null),
      ("status", .null),
      ("published_at", .null),
      ("status_changed_at", .null),
      ("organization_id", .null),
      ("url", .null)]] := by
  have h := claim_C5_normalize_defaults [exRawAnimal] (by decide)
  exact h.trans (by rfl)

/-!
## Cross-linking (`match_organizations`)

`match_organizations(animals, orgs)` builds
`org_lookup = {org["id"]: org for org in orgs}` (a Python dictionary:
later assignments to the same key overwrite the value, `dictInsert`),
then for each animal with a truthy `organization_id` found in the lookup
executes `a["organization"] = {...}` — an *in-place* update of the animal
dictionary — and finally returns the very `animals` list it received.
The embedding returns the pair `(result, orgs_after)`: the first
component is both the returned list and the post-state of the `animals`
argument (its dictionaries after the in-place updates); the second is
the post-state of the `orgs` argument, which the function never writes.
-/

/-- Python dictionary assignment `m[k] = v` for a `JVal`-keyed
dictionary: overwrite in place if the key exists, else append. -/
def dictInsert (m : List (JVal × JVal)) (k v : JVal) : List (JVal × JVal) :=
  if m.any fun p => p.1 == k then m.map fun p => if p.1 == k then (k, v) else p
  else m ++ [(k, v)]

/-- `k in m` for a `JVal`-keyed dictionary. -/
def dictMem (m : List (JVal × JVal)) (k : JVal) : Bool :=
  m.any fun p => p.1 == k

/-- `m[k]` for a `JVal`-keyed dictionary, as an `Option`. -/
def dictFind (m : List (JVal × JVal)) (k : JVal) : Option JVal :=
  (m.find? fun p => p.1 == k).map Prod.snd

/-- `{org["id"]: org for org in orgs}`; `org["id"]` raises when an
organization record lacks an `id` key or is not a dictionary. -/
def buildOrgLookup (orgs : List JVal) : Except PErr (List (JVal × JVal)) :=
  orgs.foldlM (fun m o => do pure (dictInsert m (← pyIndex o "id") o)) []

/-- Python dictionary assignment `d[k] = v` for a string-keyed
dictionary: overwrite in place, else append. -/
def setKV (kvs : List (String × JVal)) (k : String) (v : JVal) :
    List (String × JVal) :=
  if kvs.any fun p => p.1 == k then kvs.map fun p => if p.1 == k then (k, v) else p
  else kvs ++ [(k, v)]

/-- `a[k] = v` on a value known to be a dictionary (in the modelled code
path `a` always is; other values are returned unchanged). -/
def objSet (a : JVal) (k : String) (v : JVal) : JVal :=
  match a with
  | .obj kvs => .obj (setKV kvs k v)
  | _ => a

/-- The denormalized organization sub-record attached to a matched
animal. -/
def orgSub (org : JVal) : Except PErr JVal := do
  pure (.obj [
    ("name", ← pyGet org "name"),
    ("email", ← pyGet org "email"),
    ("phone", ← pyGet org "phone"),
    ("address", ← pyGet org "address"),
    ("website", ← pyGet org "website"),
    ("url", ← pyGet org "url"),
    ("photo", ← pyGet org "photo")])

/-- The loop body of `match_organizations` for one animal:
`org_id = a.get("organization_id"); if org_id and org_id in org_lookup:
a["organization"] = {...}`. -/
def matchAnimal (m : List (JVal × JVal)) (a : JVal) : Except PErr JVal := do
  let orgId ← pyGet a "organization_id"
  if truthy orgId && dictMem m orgId then do
    let sub ← orgSub ((dictFind m orgId).getD .null)
    pure (objSet a "organization" sub)
  else pure a

/-- `match_organizations(animals, orgs)`; see the section comment for
the reading of the returned pair. -/
def match_organizations (animals orgs : List JVal) :
    Except PErr (List JVal × List JVal) := do
  let m ← buildOrgLookup orgs
  let res ← animals.mapM (matchAnimal m)
  pure (res, orgs)

theorem dictMem_find (m : List (JVal × JVal)) (k : JVal)
    (h : dictMem m k = true) : ∃ v, dictFind m k = some v := by
  rw [dictMem, List.any_eq_true] at h
  obtain ⟨p, hp, hpk⟩ := h
  have : (m.find? fun p => p.1 == k).isSome := List.find?_isSome.mpr ⟨p, hp, hpk⟩
  obtain ⟨q, hq⟩ := Option.isSome_iff_exists.mp this
  exact ⟨q.2, by rw [dictFind, hq]; rfl⟩

theorem lookup_map_overwrite {α β : Type} [BEq α] [LawfulBEq α] (k : α) (v : β) :
    ∀ kvs : List (α × β), (kvs.any fun p => p.1 == k) = true →
      List.lookup k (kvs.map fun p => if p.1 == k then (k, v) else p) = some v := by
  intro kvs
  induction kvs with
  | nil => intro h; simp at h
  | cons p ps ih =>
    obtain ⟨pk, pv⟩ := p
    intro h
    by_cases hp : (pk == k) = true
    · rw [List.map_cons]
      simp only [hp, if_true]
      simp [List.lookup_cons]
    · rw [List.map_cons]
      simp only [hp, if_false, Bool.false_eq_true]
      have hk : (k == pk) = false := by
        simp only [beq_eq_false_iff_ne, ne_eq]
        intro hc
        exact hp (by simp [hc])
      simp only [List.lookup_cons, hk]
      rw [List.any_cons] at h
      rcases Bool.or_eq_true_iff.mp h with h' | h'
      · exact absurd h' hp
      · exact ih h'

theorem lookup_append_fresh {α β : Type} [BEq α] [LawfulBEq α] (k : α) (v : β) :
    ∀ kvs : List (α × β), (kvs.any fun p => p.1 == k) = false →
      List.lookup k (kvs ++ [(k, v)]) = some v := by
  intro kvs
  induction kvs with
  | nil => intro _; simp [List.lookup_cons]
  | cons p ps ih =>
    obtain ⟨pk, pv⟩ := p
    intro h
    rw [List.any_cons, Bool.or_eq_false_iff] at h
    have hk : (k == pk) = false := by
      simp only [beq_eq_false_iff_ne, ne_eq]
      intro hc
      rw [hc] at h
      simp at h
    simp only [List.cons_append, List.lookup_cons, hk]
    exact ih h.2

theorem find?_map_overwrite {α β : Type} [BEq α] [LawfulBEq α] (k : α) (v : β) :
    ∀ m : List (α × β), (m.any fun p => p.1 == k) = true →
      (m.map fun p => if p.1 == k then (k, v) else p).find? (fun p => p.1 == k) =
        some (k, v) := by
  intro m
  induction m with
  | nil => intro h; simp at h
  | cons p ps ih =>
    intro h
    by_cases hp : (p.1 == k) = true
    · rw [List.map_cons]
      simp only [hp, if_true]
      rw [List.find?_cons_of_pos _ (by simp)]
    · rw [List.map_cons]
      simp only [hp, if_false, Bool.false_eq_true]
      rw [List.find?_cons_of_neg _ (by simpa using hp)]
      rw [List.any_cons] at h
      rcases Bool.or_eq_true_iff.mp h with h' | h'
      · exact absurd h' hp
      · exact ih h'

theorem find?_append_fresh {α β : Type} [BEq α] [LawfulBEq α] (k : α) (v : β) :
    ∀ m : List (α × β), (m.any fun p => p.1 == k) = false →
      (m ++ [(k, v)]).find? (fun p => p.1 == k) = some (k, v) := by
  intro m
  induction m with
  | nil => intro _; rw [List.nil_append, List.find?_cons_of_pos _ (by simp)]
  | cons p ps ih =>
    intro h
    rw [List.any_cons, Bool.or_eq_false_iff] at h
    rw [List.cons_append, List.find?_cons_of_neg _ (by simp [h.1])]
    exact ih h.2

theorem dictInsert_find_self (m : List (JVal × JVal)) (k v : JVal) :
    dictFind (dictInsert m k v) k = some v := by
  rw [dictInsert]
  split
  · rename_i h
    rw [dictFind, find?_map_overwrite k v m h]
    rfl
  · rename_i h
    rw [dictFind, find?_append_fresh k v m (Bool.eq_false_iff.mpr h)]
    rfl

theorem setKV_lookup (kvs : List (String × JVal)) (k : String) (v : JVal) :
    (setKV kvs k v).lookup k = some v := by
  rw [setKV]
  split
  · rename_i h
    exact lookup_map_overwrite k v kvs h
  · rename_i h
    exact lookup_append_fresh k v kvs (Bool.eq_false_iff.mpr h)

/-- Per-animal behaviour of the cross-linking loop body: the animal is a
dictionary, and it is updated with an `organization` sub-record exactly
when its `organization_id` is truthy and found in the lookup. -/
theorem matchAnimal_ok (m : List (JVal × JVal)) (a a' : JVal)
    (h : matchAnimal m a = .ok a') :
    ∃ kvs, a = .obj kvs ∧
      (if truthy (lookupJ kvs "organization_id") &&
          dictMem m (lookupJ kvs "organization_id") then
        ∃ org sub, dictFind m (lookupJ kvs "organization_id") = some org ∧
          orgSub org = .ok sub ∧ a' = objSet a "organization" sub
      else a' = a) := by
  cases a with
  | obj kvs =>
    refine ⟨kvs, rfl, ?_⟩
    rw [matchAnimal] at h
    simp only [pyGet, bind, Except.bind] at h
    by_cases hcond : (truthy (lookupJ kvs "organization_id") &&
        dictMem m (lookupJ kvs "organization_id")) = true
    · rw [if_pos hcond] at h
      rw [if_pos hcond]
      have hmem : dictMem m (lookupJ kvs "organization_id") = true :=
        (Bool.and_eq_true _ _ |>.mp hcond).2
      obtain ⟨org, hfind⟩ := dictMem_find m _ hmem
      cases hsub : orgSub ((dictFind m (lookupJ kvs "organization_id")).getD .null) with
      | error e => rw [hsub] at h; exact absurd h (by simp)
      | ok sub =>
        rw [hsub] at h
        simp only [pure, Except.pure] at h
        injection h with h
        refine ⟨org, sub, hfind, ?_, h.symm⟩
        rw [hfind] at hsub
        exact hsub
    · rw [if_neg hcond] at h
      rw [if_neg hcond]
      simp only [pure, Except.pure] at h
      injection h with h
      exact h.symm
  | null | bool _ | int _ | str _ | list _ =>
    rw [matchAnimal] at h
    simp only [pyGet, bind, Except.bind] at h
    exact absurd h (by simp)

/-- List-level behaviour of the cross-linking loop. -/
theorem mapM_matchAnimal (m : List (JVal × JVal)) :
    ∀ animals res : List JVal, animals.mapM (matchAnimal m) = .ok res →
      List.Forall₂ (fun a a' =>
        ∃ kvs, a = .obj kvs ∧
          (if truthy (lookupJ kvs "organization_id") &&
              dictMem m (lookupJ kvs "organization_id") then
            ∃ org sub, dictFind m (lookupJ kvs "organization_id") = some org ∧
              orgSub org = .ok sub ∧ a' = objSet a "organization" sub
          else a' = a)) animals res := by
  intro animals
  induction animals with
  | nil =>
    intro res h
    simp only [List.mapM_nil, pure, Except.pure] at h
    injection h with h
    rw [← h]
    exact List.Forall₂.nil
  | cons a as ih =>
    intro res h
    rw [List.mapM_cons] at h
    cases ha : matchAnimal m a with
    | error e => rw [ha] at h; exact absurd h (by simp [bind, Except.bind])
    | ok a' =>
      rw [ha] at h
      simp only [bind, Except.bind] at h
      cases has : as.mapM (matchAnimal m) with
      | error e => rw [has] at h; exact absurd h (by simp)
      | ok res' =>
        rw [has] at h
        simp only [pure, Except.pure] at h
        injection h with h
        rw [← h]
        exact List.Forall₂.cons (matchAnimal_ok m a a' ha) (ih res' has)

/-- Success decomposition of `match_organizations`. -/
theorem match_organizations_ok (animals orgs : List JVal)
    (out : List JVal × List JVal)
    (h : match_organizations animals orgs = .ok out) :
    ∃ m, buildOrgLookup orgs = .ok m ∧
      animals.mapM (matchAnimal m) = .ok out.1 ∧ out.2 = orgs := by
  rw [match_organizations] at h
  cases hm : buildOrgLookup orgs with
  | error e => rw [hm] at h; exact absurd h (by simp [bind, Except.bind])
  | ok m =>
    rw [hm] at h
    simp only [bind, Except.bind] at h
    cases hr : animals.mapM (matchAnimal m) with
    | error e => rw [hr] at h; exact absurd h (by simp)
    | ok res =>
      rw [hr] at h
      simp only [pure, Except.pure] at h
      injection h with h
      exact ⟨m, rfl, by rw [← h]; exact hr, by rw [← h]⟩

/-- Whether a record carries an `organization` key. -/
def hasOrgKey (a : JVal) : Bool :=
  match a with
  | .obj kvs => (kvs.lookup "organization").isSome
  | _ => false

/-- The `organization_id` value of a record (null when absent). -/
def orgIdOf (a : JVal) : JVal :=
  match a with
  | .obj kvs => lookupJ kvs "organization_id"
  | _ => .null

/-- C3 as stated: on normalized animals (no pre-existing `organization`
key), an organization sub-record is attached if and only if the animal's
`organization_id` is *non-null* and present in the identifier lookup. -/
def claimC3Statement : Prop :=
  ∀ animals orgs m out,
    buildOrgLookup orgs = .ok m →
    match_organizations animals orgs = .ok out →
    (∀ a ∈ animals, hasOrgKey a = false) →
    List.Forall₂ (fun a a' =>
      ((orgIdOf a ≠ .null ∧ dictMem m (orgIdOf a) = true) → hasOrgKey a' = true)
      ∧ (¬(orgIdOf a ≠ .null ∧ dictMem m (orgIdOf a) = true) →
          a' = a ∧ hasOrgKey a' = false)) animals out.1

/-- C3 counterexample: the code tests Python *truthiness*
(`if org_id and org_id in org_lookup`), not non-nullness.  An animal
whose `organization_id` is the empty string — non-null and present in
the organization list — is passed through without an `organization`
field because `""` is falsy. -/
theorem claim_C3_counterexample : ¬ claimC3Statement := by
  intro hclaim
  have h := hclaim [.obj [("organization_id", .str "")]] [.obj [("id", .str "")]]
      [((.str ""), .obj [("id", .str "")])]
      ([.obj [("organization_id", .str "")]], [.obj [("id", .str "")]])
      (by rfl) (by rfl) (by decide)
  cases h with
  | cons hhead _ =>
    have hattach := hhead.1 ⟨by decide, by decide⟩
    exact absurd hattach (by decide)

/-- C3 amended: the sub-record (name, email, phone, address, website,
url, photo fields, `orgSub`) is attached under the `organization` key if
and only if the animal's `organization_id` is *truthy* (non-null,
non-empty, non-zero) and present in the identifier lookup, which is
built last-write-wins (second conjunct); every other animal is returned
unchanged. -/
theorem claim_C3_attach_iff_amended (animals orgs : List JVal)
    (m : List (JVal × JVal)) (out : List JVal × List JVal)
    (hm : buildOrgLookup orgs = .ok m)
    (h : match_organizations animals orgs = .ok out) :
    List.Forall₂ (fun a a' =>
      ∃ kvs, a = .obj kvs ∧
        (if truthy (lookupJ kvs "organization_id") &&
            dictMem m (lookupJ kvs "organization_id") then
          ∃ org sub, dictFind m (lookupJ kvs "organization_id") = some org ∧
            orgSub org = .ok sub ∧ a' = objSet a "organization" sub ∧
            pyIndex a' "organization" = .ok sub
        else a' = a)) animals out.1
    ∧ (∀ pre o idv, orgs = pre ++ [o] → pyIndex o "id" = .ok idv →
        dictFind m idv = some o) := by
  obtain ⟨m', hm', hmap, _⟩ := match_organizations_ok animals orgs out h
  have hmm : m' = m := by rw [hm] at hm'; injection hm' with hmm; exact hmm.symm
  subst hmm
  constructor
  · refine (mapM_matchAnimal m' animals out.1 hmap).imp ?_
    rintro a a' ⟨kvs, ha, hif⟩
    refine ⟨kvs, ha, ?_⟩
    by_cases hcond : (truthy (lookupJ kvs "organization_id") &&
        dictMem m' (lookupJ kvs "organization_id")) = true
    · rw [if_pos hcond] at hif
      rw [if_pos hcond]
      obtain ⟨org, sub, h1, h2, h3⟩ := hif
      refine ⟨org, sub, h1, h2, h3, ?_⟩
      rw [h3, ha]
      simp [pyIndex, objSet, setKV_lookup]
    · rw [if_neg hcond] at hif
      rw [if_neg hcond]
      exact hif
  · rintro pre o idv rfl hid
    rw [buildOrgLookup, List.foldlM_append] at hm
    cases hpre : List.foldlM (fun m o => do pure (dictInsert m (← pyIndex o "id") o))
        ([] : List (JVal × JVal)) pre with
    | error e =>
      rw [hpre] at hm
      exact absurd hm (by simp [bind, Except.bind])
    | ok m₁ =>
      rw [hpre] at hm
      simp only [bind, Except.bind, List.foldlM_cons, List.foldlM_nil, hid,
        pure, Except.pure] at hm
      injection hm with hm
      rw [← hm]
      exact dictInsert_find_self m₁ idv o

def exAnimalsC3w : List JVal := [.obj [("organization_id", .str "ORG1")]]

def exOrgC3w : JVal := .obj [("id", .str "ORG1"), ("name", .str "Shelter A")]

def exResC3w : JVal := .obj [("organization_id", .str "ORG1"),
  ("organization", .obj [
    ("name", .str "Shelter A"), ("email", .null), ("phone", .null),
    ("address", .null), ("website", .null), ("url", .null), ("photo", .null)])]

theorem claim_C3_witness :
    dictFind [((JVal.str "ORG1"), exOrgC3w)] (.str "ORG1") = some exOrgC3w
    ∧ match_organizations exAnimalsC3w [exOrgC3w] = .ok ([exResC3w], [exOrgC3w]) := by
  have h := claim_C3_attach_iff_amended exAnimalsC3w [exOrgC3w]
      [((JVal.str "ORG1"), exOrgC3w)] ([exResC3w], [exOrgC3w]) (by rfl) (by rfl)
  exact ⟨h.2 [] exOrgC3w (.str "ORG1") rfl (by rfl), by rfl⟩

/-- C4 as stated: `match_organizations` leaves the animal records and
the organization records unchanged (the post-call state of both input
collections equals their pre-call state). -/
def claimC4Statement : Prop :=
  ∀ animals orgs out, match_organizations animals orgs = .ok out →
    out.1 = animals ∧ out.2 = orgs

def exAnimalsC4 : List JVal := [.obj [("organization_id", .str "O1")]]

def exOrgsC4 : List JVal := [.obj [("id", .str "O1")]]

def exResC4 : JVal := .obj [("organization_id", .str "O1"),
  ("organization", .obj [
    ("name", .null), ("email", .null), ("phone", .null), ("address", .null),
    ("website", .null), ("url", .null), ("photo", .null)])]

/-- C4 counterexample: `a["organization"] = {...}` updates the animal
dictionaries of the input list in place, and the function returns the
very same (now modified) `animals` list, not a fresh collection: the
post-call animal records differ from the pre-call ones. -/
theorem claim_C4_counterexample : ¬ claimC4Statement := by
  intro hclaim
  have h := (hclaim exAnimalsC4 exOrgsC4 ([exResC4], exOrgsC4) (by rfl)).1
  exact absurd h (by decide)

/-- C4 amended: the organization collection is never written
(`out.2 = orgs`), but matched animal records are updated in place with
an added `organization` key; the returned collection is the mutated
input animal list (element-for-element: each output record is the input
record itself or the input record with the `organization` key set). -/
theorem claim_C4_orgs_unmutated_amended (animals orgs : List JVal)
    (out : List JVal × List JVal)
    (h : match_organizations animals orgs = .ok out) :
    out.2 = orgs ∧ out.1.length = animals.length ∧
    List.Forall₂ (fun a a' => a' = a ∨ ∃ sub, a' = objSet a "organization" sub)
      animals out.1 := by
  obtain ⟨m, _, hmap, horgs⟩ := match_organizations_ok animals orgs out h
  have hf := mapM_matchAnimal m animals out.1 hmap
  refine ⟨horgs, hf.length_eq.symm, ?_⟩
  refine hf.imp ?_
  rintro a a' ⟨kvs, ha, hif⟩
  by_cases hcond : (truthy (lookupJ kvs "organization_id") &&
      dictMem m (lookupJ kvs "organization_id")) = true
  · rw [if_pos hcond] at hif
    obtain ⟨org, sub, _, _, h3⟩ := hif
    exact Or.inr ⟨sub, h3⟩
  · rw [if_neg hcond] at hif
    exact Or.inl hif

theorem claim_C4_witness :
    (([exResC4], exOrgsC4) : List JVal × List JVal).2 = exOrgsC4
    ∧ ([exResC4] : List JVal).length = exAnimalsC4.length := by
  have h := claim_C4_orgs_unmutated_amended exAnimalsC4 exOrgsC4
      ([exResC4], exOrgsC4) (by rfl)
  exact ⟨h.1, h.2.1⟩

/-- Every successfully cleaned organization record is a dictionary whose
first key is `id` (possibly with a null value). -/
theorem cleanOrganization_shape (o c : JVal) (h : cleanOrganization o = .ok c) :
    ∃ v rest, c = .obj (("id", v) :: rest) := by
  rw [cleanOrganization] at h
  simp only [bind, Except.bind, pure, Except.pure] at h
  repeat' split at h
  all_goals first
    | exact Except.noConfusion h
    | (injection h with h; exact ⟨_, _, h.symm⟩)

theorem clean_organization_data_elem :
    ∀ raws outs : List JVal, clean_organization_data raws = .ok outs →
      ∀ o ∈ outs, ∃ r, cleanOrganization r = .ok o := by
  intro raws
  induction raws with
  | nil =>
    intro outs h o ho
    simp only [clean_organization_data, List.mapM_nil, pure, Except.pure] at h
    injection h with h
    rw [← h] at ho
    exact absurd ho (by simp)
  | cons r rs ih =>
    intro outs h o ho
    rw [clean_organization_data, List.mapM_cons] at h
    cases hr : cleanOrganization r with
    | error e => rw [hr] at h; exact absurd h (by simp [bind, Except.bind])
    | ok c =>
      rw [hr] at h
      simp only [bind, Except.bind] at h
      cases hrs : rs.mapM cleanOrganization with
      | error e => rw [hrs] at h; exact absurd h (by simp)
      | ok cs =>
        rw [hrs] at h
        simp only [pure, Except.pure] at h
        injection h with h
        rw [← h] at ho
        rcases List.mem_cons.mp ho with hoc | hoc
        · exact ⟨r, by rw [hr, hoc]⟩
        · exact ih cs hrs o hoc

theorem buildOrgLookup_go_ok :
    ∀ (outs : List JVal) (m₀ : List (JVal × JVal)),
      (∀ o ∈ outs, ∃ v, pyIndex o "id" = .ok v) →
      ∃ m, outs.foldlM (fun m o => do pure (dictInsert m (← pyIndex o "id") o)) m₀ =
        .ok m := by
  intro outs
  induction outs with
  | nil => intro m₀ _; exact ⟨m₀, rfl⟩
  | cons o os ih =>
    intro m₀ h
    obtain ⟨v, hv⟩ := h o (List.mem_cons_self o os)
    obtain ⟨m, hm⟩ := ih (dictInsert m₀ v o) fun o' ho' => h o' (List.mem_cons_of_mem o ho')
    refine ⟨m, ?_⟩
    rw [List.foldlM_cons]
    simp only [hv, bind, Except.bind, pure, Except.pure]
    exact hm

/-- C10: every record produced by `clean_organization_data` contains an
`id` field (null when the raw organization lacked an identifier), so the
Cross-Linker's lookup construction `{org["id"]: org for org in orgs}`
never fails on a missing key for normalized input. -/
theorem claim_C10_org_id_invariant (raws outs : List JVal)
    (h : clean_organization_data raws = .ok outs) :
    (∀ o ∈ outs, ∃ v rest, o = .obj (("id", v) :: rest))
    ∧ ∃ m, buildOrgLookup outs = .ok m := by
  have hshape : ∀ o ∈ outs, ∃ v rest, o = .obj (("id", v) :: rest) := by
    intro o ho
    obtain ⟨r, hr⟩ := clean_organization_data_elem raws outs h o ho
    exact cleanOrganization_shape r o hr
  refine ⟨hshape, ?_⟩
  rw [buildOrgLookup]
  refine buildOrgLookup_go_ok outs [] ?_
  intro o ho
  obtain ⟨v, rest, hv⟩ := hshape o ho
  refine ⟨v, ?_⟩
  rw [hv]
  simp [pyIndex, List.lookup_cons]

/-- The normalization of a raw organization record with no fields at
all: every scalar is null, including the identifier. -/
def exCleanOrgC10 : JVal := .obj [
  ("id", .null), ("name", .null), ("email", .null), ("phone", .null),
  ("address", .obj [("city", .null), ("state", .null), ("postcode", .null)]),
  ("url", .null), ("website", .null), ("mission_statement", .null),
  ("adoption", .obj [("policy", .null), ("url", .null)]),
  ("social_media", .obj [("facebook", .null), ("instagram", .null)]),
  ("photo", .null)]

theorem claim_C10_witness :
    ∃ m, buildOrgLookup [exCleanOrgC10] = .ok m := by
  have h := claim_C10_org_id_invariant [.obj []] [exCleanOrgC10] (by rfl)
  exact h.2

/-!
## Token manager (`get_auth_token`)

The cache file is abstracted as `Option JVal` (its parsed content when
it exists), the clock as an integer `now`, and the auth endpoint's
response as `AuthResp`.  The result triple is `(returned access token,
cache content after the call, whether the network was used)`.
-/

/-- The auth endpoint's response: status code and parsed JSON body. -/
structure AuthResp where
  status : Nat
  body : JVal

/-- `time.time() < cached["expires_at"]`: numeric comparison, raising
`TypeError` on a non-numeric stored expiry. -/
def pyLtNum (n : Int) (v : JVal) : Except PErr Bool :=
  match v with
  | .int m => .ok (decide (n < m))
  | .bool b => .ok (decide (n < if b then 1 else 0))
  | _ => .error .typeError

theorem lookup_map_overwrite_ne {k k' : String} {v : JVal} (h : ¬k' = k) :
    ∀ kvs : List (String × JVal),
      List.lookup k' (kvs.map fun p => if p.1 == k then (k, v) else p) =
        List.lookup k' kvs := by
  intro kvs
  induction kvs with
  | nil => rfl
  | cons p ps ih =>
    obtain ⟨pk, pv⟩ := p
    rw [List.map_cons]
    by_cases hp : (pk == k) = true
    · have h1 : (k' == k) = false := by
        simp only [beq_eq_false_iff_ne, ne_eq]; exact h
      have h2 : (k' == pk) = false := by
        simp only [beq_eq_false_iff_ne, ne_eq]
        intro hc
        exact h (hc.trans (beq_iff_eq.mp hp))
      simp only [if_pos hp, List.lookup_cons, h1, h2]
      exact ih
    · simp only [if_neg hp, List.lookup_cons]
      cases hkp : (k' == pk) with
      | true => rfl
      | false => exact ih

theorem lookup_append_single_ne {k k' : String} {v : JVal} (h : ¬k' = k) :
    ∀ kvs : List (String × JVal),
      List.lookup k' (kvs ++ [(k, v)]) = List.lookup k' kvs := by
  intro kvs
  induction kvs with
  | nil =>
    have h1 : (k' == k) = false := by
      simp only [beq_eq_false_iff_ne, ne_eq]; exact h
    simp [List.lookup_cons, h1]
  | cons p ps ih =>
    obtain ⟨pk, pv⟩ := p
    simp only [List.cons_append, List.lookup_cons]
    cases hkp : (k' == pk) with
    | true => rfl
    | false => exact ih

/-- Lookup after overwriting a different key is unchanged. -/
theorem setKV_lookup_ne (kvs : List (String × JVal)) (k k' : String) (v : JVal)
    (h : ¬k' = k) : (setKV kvs k v).lookup k' = kvs.lookup k' := by
  rw [setKV]
  split
  · exact lookup_map_overwrite_ne h kvs
  · exact lookup_append_single_ne h kvs

/-- The credential-exchange path of `get_auth_token`: POST, fail on a
non-success status, read `expires_in` from the body, store
`expires_at = now + expires_in - 10`, persist, and return the
`access_token`. -/
def requestNewToken (now : Int) (resp : AuthResp) :
    Except PErr (JVal × Option JVal × Bool) :=
  if 400 ≤ resp.status then .error .authError
  else do
    let ei ← pyIndex resp.body "expires_in"
    match ei, resp.body with
    | .int n, .obj kvs => do
      let newData := JVal.obj (setKV kvs "expires_at" (.int (now + n - 10)))
      let tok ← pyIndex newData "access_token"
      pure (tok, some newData, true)
    | _, _ => .error .typeError

/-- `get_auth_token()`: return the cached token when the cache file
exists and `now` is before its stored expiry; otherwise perform the
exchange. -/
def get_auth_token (cache : Option JVal) (now : Int) (resp : AuthResp) :
    Except PErr (JVal × Option JVal × Bool) :=
  match cache with
  | some cached => do
    let ea ← pyIndex cached "expires_at"
    let lt ← pyLtNum now ea
    if lt then do
      let tok ← pyIndex cached "access_token"
      pure (tok, some cached, false)
    else requestNewToken now resp
  | none => requestNewToken now resp

/-- C8: `get_auth_token` returns the cached credential unchanged with no
network call whenever a persisted credential exists and `now` is before
its expiry; otherwise it performs the exchange, stores the new expiry
`now + expires_in - 10`, persists the new credential, and returns its
access token. -/
theorem claim_C8_token_cache (cache : Option JVal) (now : Int) (resp : AuthResp) :
    (∀ kvs e tok, cache = some (.obj kvs) →
      kvs.lookup "expires_at" = some (.int e) → now < e →
      kvs.lookup "access_token" = some tok →
      get_auth_token cache now resp = .ok (tok, cache, false))
    ∧ (∀ bodyKvs ttl tok, resp.status < 400 → resp.body = .obj bodyKvs →
        bodyKvs.lookup "expires_in" = some (.int ttl) →
        bodyKvs.lookup "access_token" = some tok →
        (cache = none ∨ ∃ kvs e, cache = some (.obj kvs) ∧
          kvs.lookup "expires_at" = some (.int e) ∧ ¬now < e) →
        get_auth_token cache now resp =
          .ok (tok, some (.obj (setKV bodyKvs "expires_at"
            (.int (now + ttl - 10)))), true)) := by
  constructor
  · intro kvs e tok hc he hlt htok
    subst hc
    rw [get_auth_token]
    simp only [pyIndex, he, pyLtNum, bind, Except.bind]
    rw [if_pos (by simpa using hlt)]
    simp [pyIndex, htok, pure, Except.pure]
  · intro bodyKvs ttl tok hst hb hei htok hcache
    have hreq : requestNewToken now resp =
        .ok (tok, some (.obj (setKV bodyKvs "expires_at"
          (.int (now + ttl - 10)))), true) := by
      rw [requestNewToken, if_neg (by omega)]
      simp only [hb, pyIndex, hei, bind, Except.bind]
      have : (setKV bodyKvs "expires_at" (.int (now + ttl - 10))).lookup
          "access_token" = some tok := by
        rw [setKV_lookup_ne _ _ _ _ (by decide)]
        exact htok
      simp [this, pure, Except.pure]
    rcases hcache with hc | ⟨kvs, e, hc, he, hnlt⟩
    · subst hc
      rw [get_auth_token]
      exact hreq
    · subst hc
      rw [get_auth_token]
      simp only [pyIndex, he, pyLtNum, bind, Except.bind]
      rw [if_neg (by simpa using hnlt)]
      exact hreq

/-- The spec's scenario: the endpoint returns
`{access_token: "abc", expires_in: 3600}` at time 1000 with no cache, so
the persisted expiry is 4590 = 1000 + 3600 - 10; a second call at time
2000 < 4590 returns `"abc"` from the cache without a network call. -/
theorem claim_C8_witness :
    get_auth_token none 1000 ⟨200, .obj [("access_token", .str "abc"),
      ("expires_in", .int 3600)]⟩ =
      .ok (.str "abc", some (.obj [("access_token", .str "abc"),
        ("expires_in", .int 3600), ("expires_at", .int 4590)]), true)
    ∧ get_auth_token (some (.obj [("access_token", .str "abc"),
        ("expires_in", .int 3600), ("expires_at", .int 4590)])) 2000
        ⟨200, .obj []⟩ =
      .ok (.str "abc", some (.obj [("access_token", .str "abc"),
        ("expires_in", .int 3600), ("expires_at", .int 4590)]), false) := by
  constructor
  · have h := (claim_C8_token_cache none 1000 ⟨200, .obj [("access_token", .str "abc"),
      ("expires_in", .int 3600)]⟩).2 [("access_token", .str "abc"),
      ("expires_in", .int 3600)] 3600 (.str "abc") (by decide) rfl (by decide)
      (by decide) (Or.inl rfl)
    exact h.trans (by rfl)
  · exact (claim_C8_token_cache _ 2000 ⟨200, .obj []⟩).1
      [("access_token", .str "abc"), ("expires_in", .int 3600),
        ("expires_at", .int 4590)] 4590 (.str "abc") rfl (by decide) (by decide)
      (by decide)

/-!
## Store importer (`import_to_db`)

The two snapshot files are abstracted as `Option JVal` (their parsed
content when they exist; `none` models a missing path, raising
`FileNotFoundError`, the spec's `MissingInputError`).  The relational
store is the two tables.  SQLite row values are left as `JVal`.  The
whole batch runs in one implicit transaction committed by the single
`conn.commit()` at the end; on any exception the commit is never
reached and the uncommitted changes are rolled back when the connection
goes away, so the importer either installs the complete batch or leaves
the store unchanged — encoded by returning the original store alongside
the error.
-/

deriving instance DecidableEq for Except

/-- A row of the `organizations` table, in column order. -/
structure OrgRow where
  id : JVal
  name : JVal
  email : JVal
  phone : JVal
  city : JVal
  state : JVal
  postcode : JVal
  website : JVal
  url : JVal
  photo : JVal
deriving DecidableEq

/-- A row of the `animals` table, in column order. -/
structure AnimalRow where
  id : JVal
  name : JVal
  type : JVal
  species : JVal
  primary_breed : JVal
  secondary_breed : JVal
  mixed : JVal
  age : JVal
  gender : JVal
  size : JVal
  coat : JVal
  spayed_neutered : JVal
  house_trained : JVal
  special_needs : JVal
  shots_current : JVal
  environment_children : JVal
  environment_dogs : JVal
  environment_cats : JVal
  tags : JVal
  description : JVal
  primary_photo : JVal
  status : JVal
  published_at : JVal
  status_changed_at : JVal
  organization_id : JVal
  url : JVal
deriving DecidableEq

/-- The relational store: the two tables created by `import_to_db`. -/
structure DB where
  organizations : List OrgRow
  animals : List AnimalRow
deriving DecidableEq

/-- Python `int(x)`: booleans map to 0/1, integers stay, numeric
strings parse, everything else raises. -/
def pyInt (v : JVal) : Except PErr JVal :=
  match v with
  | .bool b => .ok (.int (if b then 1 else 0))
  | .int n => .ok (.int n)
  | .str s =>
    match s.toInt? with
    | some n => .ok (.int n)
    | none => .error .valueError
  | _ => .error .typeError

/-- Python `int(x is True)`: 1 exactly when the value is the boolean
`True`, else 0; never raises. -/
def pyIsTrue (v : JVal) : JVal :=
  .int (if v = .bool true then 1 else 0)

/-- The strings of a list of values, if they are all strings. -/
def strList? : List JVal → Option (List String)
  | [] => some []
  | .str s :: rest =>
    match strList? rest with
    | some ss => some (s :: ss)
    | none => none
  | _ => none

/-- `", ".join(x)`: joins an iterable of strings; a string iterates to
its characters; non-string elements raise `TypeError`. -/
def pyJoinTags (v : JVal) : Except PErr JVal :=
  match v with
  | .list xs =>
    match strList? xs with
    | some ss => .ok (.str (String.intercalate ", " ss))
    | none => .error .typeError
  | .str s => .ok (.str (String.intercalate ", " (s.toList.map String.singleton)))
  | _ => .error .typeError

/-- The parameter tuple of the `organizations` upsert for one record. -/
def buildOrgRow (org : JVal) : Except PErr OrgRow := do
  let id ← pyGet org "id"
  let name ← pyGet org "name"
  let email ← pyGet org "email"
  let phone ← pyGet org "phone"
  let city ← pyGet (← pyGetD org "address" (.obj [])) "city"
  let state ← pyGet (← pyGetD org "address" (.obj [])) "state"
  let postcode ← pyGet (← pyGetD org "address" (.obj [])) "postcode"
  let website ← pyGet org "website"
  let url ← pyGet org "url"
  let photo ← pyGet org "photo"
  pure ⟨id, name, email, phone, city, state, postcode, website, url, photo⟩

/-- The parameter tuple of the `animals` upsert for one record. -/
def buildAnimalRow (animal : JVal) : Except PErr AnimalRow := do
  let id ← pyGet animal "id"
  let name ← pyGet animal "name"
  let ty ← pyGet animal "type"
  let species ← pyGet animal "species"
  let primary_breed ← pyGet (← pyGetD animal "breeds" (.obj [])) "primary"
  let secondary_breed ← pyGet (← pyGetD animal "breeds" (.obj [])) "secondary"
  let mixed ← pyInt (← pyGetD (← pyGetD animal "breeds" (.obj [])) "mixed" (.bool false))
  let age ← pyGet animal "age"
  let gender ← pyGet animal "gender"
  let size ← pyGet animal "size"
  let coat ← pyGet animal "coat"
  let spayed ← pyInt (← pyGetD (← pyGetD animal "attributes" (.obj [])) "spayed_neutered" (.bool false))
  let house ← pyInt (← pyGetD (← pyGetD animal "attributes" (.obj [])) "house_trained" (.bool false))
  let special ← pyInt (← pyGetD (← pyGetD animal "attributes" (.obj [])) "special_needs" (.bool false))
  let shots ← pyInt (← pyGetD (← pyGetD animal "attributes" (.obj [])) "shots_current" (.bool false))
  let envChildren := pyIsTrue (← pyGet (← pyGetD animal "environment" (.obj [])) "children")
  let envDogs := pyIsTrue (← pyGet (← pyGetD animal "environment" (.obj [])) "dogs")
  let envCats := pyIsTrue (← pyGet (← pyGetD animal "environment" (.obj [])) "cats")
  let tags ← pyJoinTags (← pyGetD animal "tags" (.list []))
  let description ← pyGet animal "description"
  let primary_photo ← pyGet animal "primary_photo"
  let status ← pyGet animal "status"
  let published_at ← pyGet animal "published_at"
  let status_changed_at ← pyGet animal "status_changed_at"
  let organization_id ← pyGet animal "organization_id"
  let url ← pyGet animal "url"
  pure ⟨id, name, ty, species, primary_breed, secondary_breed, mixed, age, gender,
    size, coat, spayed, house, special, shots, envChildren, envDogs, envCats,
    tags, description, primary_photo, status, published_at, status_changed_at,
    organization_id, url⟩

/-- `INSERT ... ON CONFLICT(id) DO UPDATE SET ...`: update the existing
row(s) with the conflicting key, else insert at the end.  A NULL primary
key never conflicts in SQLite, so a null-id row is always inserted. -/
def upsertRow {ρ : Type} (key : ρ → JVal) (t : List ρ) (r : ρ) : List ρ :=
  if key r != JVal.null && t.any fun q => key q == key r then
    t.map fun q => if key q == key r then r else q
  else t ++ [r]

/-- Upserting a batch of rows in order. -/
def upsertAll {ρ : Type} (key : ρ → JVal) (t : List ρ) (rows : List ρ) : List ρ :=
  rows.foldl (upsertRow key) t

/-- The body of `import_to_db` after the existence check: load both
files, upsert every organization row into the pending organizations
table, then every animal row into the pending animals table; the
pending store is returned for the final commit. -/
def runImport (orgData animalData : JVal) (db : DB) : Except PErr DB := do
  let orgs ← pyIter orgData
  let orgTable ← orgs.foldlM
    (fun t o => do pure (upsertRow OrgRow.id t (← buildOrgRow o))) db.organizations
  let animals ← pyIter animalData
  let animalTable ← animals.foldlM
    (fun t a => do pure (upsertRow AnimalRow.id t (← buildAnimalRow a))) db.animals
  pure ⟨orgTable, animalTable⟩

/-- `import_to_db(animal_path, org_path)` against store state `db`:
missing file → `MissingInputError` and no change; any exception during
the batch → no change (no partial commit); success → the fully upserted
store, committed once. -/
def import_to_db (animalFile orgFile : Option JVal) (db : DB) :
    Except PErr Unit × DB :=
  match animalFile, orgFile with
  | some animalData, some orgData =>
    match runImport orgData animalData db with
    | .ok db' => (.ok (), db')
    | .error e => (.error e, db)
  | _, _ => (.error .missingInput, db)

/-!
### Upsert algebra

`upsertRow` keyed by a `JVal` column, with SQLite's rule that NULL
primary keys never conflict.  The development culminates in
`upsertAll_idem`: re-importing a batch whose keys are all non-null is a
no-op.
-/

/-- The last row of a batch carrying key `k`, if any. -/
def lastRowWith {ρ : Type} (key : ρ → JVal) : List ρ → JVal → Option ρ
  | [], _ => none
  | r :: rest, k =>
    match lastRowWith key rest k with
    | some q => some q
    | none => if key r == k then some r else none

theorem upsertAll_cons {ρ : Type} (key : ρ → JVal) (t : List ρ) (r : ρ)
    (rest : List ρ) :
    upsertAll key t (r :: rest) = upsertAll key (upsertRow key t r) rest := rfl

theorem upsert_repl_key {ρ : Type} (key : ρ → JVal) (r q : ρ) :
    key (if key q == key r then r else q) = key q := by
  by_cases h : (key q == key r) = true
  · rw [if_pos h]
    exact (beq_iff_eq.mp h).symm
  · rw [if_neg h]

theorem keyMem_upsertRow_of_mem {ρ : Type} (key : ρ → JVal) (t : List ρ)
    (r : ρ) (k : JVal) (h : (t.any fun q => key q == k) = true) :
    ((upsertRow key t r).any fun q => key q == k) = true := by
  rw [upsertRow]
  split
  · rw [List.any_map]
    rw [List.any_eq_true] at h ⊢
    obtain ⟨q, hq, hqk⟩ := h
    refine ⟨q, hq, ?_⟩
    simp only [Function.comp]
    rw [upsert_repl_key key r q]
    exact hqk
  · rw [List.any_append, h]
    rfl

theorem keyMem_upsertRow_self {ρ : Type} (key : ρ → JVal) (t : List ρ) (r : ρ) :
    ((upsertRow key t r).any fun q => key q == key r) = true := by
  rw [upsertRow]
  split
  · rename_i hcond
    have hany : (t.any fun q => key q == key r) = true :=
      (Bool.and_eq_true _ _ |>.mp hcond).2
    rw [List.any_map, List.any_eq_true]
    rw [List.any_eq_true] at hany
    obtain ⟨q, hq, hqk⟩ := hany
    refine ⟨q, hq, ?_⟩
    simp only [Function.comp]
    rw [if_pos hqk]
    simp
  · simp [List.any_append]

theorem keyMem_upsertAll_of_mem {ρ : Type} (key : ρ → JVal) :
    ∀ (rows t : List ρ) (k : JVal),
      (t.any fun q => key q == k) = true →
      ((upsertAll key t rows).any fun q => key q == k) = true := by
  intro rows
  induction rows with
  | nil => intro t k h; exact h
  | cons r rest ih =>
    intro t k h
    rw [upsertAll_cons]
    exact ih (upsertRow key t r) k (keyMem_upsertRow_of_mem key t r k h)

theorem keyMem_upsertAll_self {ρ : Type} (key : ρ → JVal) :
    ∀ (rows t : List ρ) (r : ρ), r ∈ rows →
      ((upsertAll key t rows).any fun q => key q == key r) = true := by
  intro rows
  induction rows with
  | nil => intro t r h; exact absurd h (by simp)
  | cons r0 rest ih =>
    intro t r h
    rw [upsertAll_cons]
    rcases List.mem_cons.mp h with h | h
    · subst h
      exact keyMem_upsertAll_of_mem key rest (upsertRow key t r) (key r)
        (keyMem_upsertRow_self key t r)
    · exact ih (upsertRow key t r0) r h

theorem upsertRow_map_of_mem {ρ : Type} (key : ρ → JVal) (t : List ρ) (r : ρ)
    (hnn : key r ≠ .null) (hmem : (t.any fun q => key q == key r) = true) :
    upsertRow key t r = t.map fun q => if key q == key r then r else q := by
  rw [upsertRow, if_pos]
  rw [Bool.and_eq_true]
  exact ⟨bne_iff_ne.mpr hnn, hmem⟩

theorem upsertAll_map_of_mem {ρ : Type} (key : ρ → JVal) :
    ∀ (rows T : List ρ),
      (∀ r ∈ rows, key r ≠ .null) →
      (∀ r ∈ rows, (T.any fun q => key q == key r) = true) →
      upsertAll key T rows =
        T.map fun q => (lastRowWith key rows (key q)).getD q := by
  intro rows
  induction rows with
  | nil =>
    intro T _ _
    simp [upsertAll, lastRowWith]
  | cons r rest ih =>
    intro T hnn hmem
    rw [upsertAll_cons,
      upsertRow_map_of_mem key T r (hnn r (by simp)) (hmem r (by simp))]
    have hmem' : ∀ r' ∈ rest,
        ((T.map fun q => if key q == key r then r else q).any
          fun q => key q == key r') = true := by
      intro r' hr'
      rw [List.any_map]
      have hm := hmem r' (List.mem_cons_of_mem r hr')
      rw [List.any_eq_true] at hm ⊢
      obtain ⟨q, hq, hqk⟩ := hm
      refine ⟨q, hq, ?_⟩
      simp only [Function.comp]
      rw [upsert_repl_key key r q]
      exact hqk
    rw [ih (T.map fun q => if key q == key r then r else q)
      (fun r' hr' => hnn r' (List.mem_cons_of_mem r hr')) hmem']
    rw [List.map_map]
    refine List.map_congr_left ?_
    intro q _
    simp only [Function.comp]
    rw [upsert_repl_key key r q]
    simp only [lastRowWith]
    cases hl : lastRowWith key rest (key q) with
    | some x => simp [hl]
    | none =>
      simp only [hl]
      by_cases hq : (key q == key r) = true
      · have hrq : (key r == key q) = true := by
          rw [beq_iff_eq] at hq ⊢
          exact hq.symm
        rw [if_pos hq, if_pos hrq]
        rfl
      · have hrq : (key r == key q) = false := by
          rw [beq_eq_false_iff_ne]
          intro hc
          exact hq (beq_iff_eq.mpr hc.symm)
        rw [if_neg hq, if_neg (by simp [hrq])]

theorem mem_upsertRow_untouched {ρ : Type} (key : ρ → JVal) (t : List ρ)
    (r q : ρ) (hq : q ∈ upsertRow key t r) (hne : (key r == key q) = false) :
    q ∈ t := by
  rw [upsertRow] at hq
  split at hq
  · rw [List.mem_map] at hq
    obtain ⟨q0, hq0, hrepl⟩ := hq
    by_cases h0 : (key q0 == key r) = true
    · rw [if_pos h0] at hrepl
      exfalso
      rw [← hrepl] at hne
      simp at hne
    · rw [if_neg h0] at hrepl
      rw [← hrepl]
      exact hq0
  · rw [List.mem_append] at hq
    rcases hq with h | h
    · exact h
    · exfalso
      have : q = r := by simpa using h
      rw [this] at hne
      simp at hne

theorem mem_upsertAll_untouched {ρ : Type} (key : ρ → JVal) :
    ∀ (rows t : List ρ) (q : ρ), q ∈ upsertAll key t rows →
      lastRowWith key rows (key q) = none → q ∈ t := by
  intro rows
  induction rows with
  | nil => intro t q hq _; exact hq
  | cons r rest ih =>
    intro t q hq hl
    cases hrest : lastRowWith key rest (key q) with
    | some x =>
      simp only [lastRowWith, hrest] at hl
      exact absurd hl (by simp)
    | none =>
      simp only [lastRowWith, hrest] at hl
      have hne : (key r == key q) = false := by
        by_cases hc : (key r == key q) = true
        · rw [if_pos hc] at hl
          exact absurd hl (by simp)
        · exact Bool.eq_false_iff.mpr hc
      have hq' : q ∈ upsertRow key t r :=
        ih (upsertRow key t r) q hq hrest
      exact mem_upsertRow_untouched key t r q hq' hne

theorem lastRowWith_upsertAll {ρ : Type} (key : ρ → JVal) :
    ∀ (rows t : List ρ) (q : ρ),
      (∀ r ∈ rows, key r ≠ .null) →
      q ∈ upsertAll key t rows →
      lastRowWith key rows (key q) = none ∨
        lastRowWith key rows (key q) = some q := by
  intro rows
  induction rows with
  | nil => intro t q _ _; left; rfl
  | cons r rest ih =>
    intro t q hnn hq
    rcases ih (upsertRow key t r) q
        (fun r' h => hnn r' (List.mem_cons_of_mem r h)) hq with hl | hl
    · by_cases hrq : (key r == key q) = true
      · right
        have hqmem : q ∈ upsertRow key t r :=
          mem_upsertAll_untouched key rest (upsertRow key t r) q hq hl
        have hqr : q = r := by
          rw [upsertRow] at hqmem
          split at hqmem
          · rw [List.mem_map] at hqmem
            obtain ⟨q0, hq0mem, hrepl⟩ := hqmem
            by_cases h0 : (key q0 == key r) = true
            · rw [if_pos h0] at hrepl
              exact hrepl.symm
            · rw [if_neg h0] at hrepl
              exfalso
              apply h0
              rw [hrepl, beq_iff_eq]
              exact (beq_iff_eq.mp hrq).symm
          · rename_i hcond
            rw [List.mem_append] at hqmem
            rcases hqmem with h | h
            · exfalso
              apply hcond
              rw [Bool.and_eq_true]
              refine ⟨bne_iff_ne.mpr (hnn r (by simp)), ?_⟩
              rw [List.any_eq_true]
              exact ⟨q, h, beq_iff_eq.mpr (beq_iff_eq.mp hrq).symm⟩
            · simpa using h
        simp only [lastRowWith, hl]
        rw [if_pos hrq, hqr]
      · left
        simp only [lastRowWith, hl]
        rw [if_neg (by simp [hrq])]
    · right
      simp only [lastRowWith, hl]

/-- Upserting the same batch of non-null-keyed rows twice is the same as
upserting it once. -/
theorem upsertAll_idem {ρ : Type} (key : ρ → JVal) (rows t : List ρ)
    (hnn : ∀ r ∈ rows, key r ≠ .null) :
    upsertAll key (upsertAll key t rows) rows = upsertAll key t rows := by
  rw [upsertAll_map_of_mem key rows (upsertAll key t rows) hnn
    (fun r h => keyMem_upsertAll_self key rows t r h)]
  have hpt : ∀ q ∈ upsertAll key t rows,
      (lastRowWith key rows (key q)).getD q = q := by
    intro q hq
    rcases lastRowWith_upsertAll key rows t q hnn hq with h | h
    · rw [h]; rfl
    · rw [h]; rfl
  exact (List.map_congr_left hpt).trans (List.map_id' _)

/-- The row batches an import would run, in the order the code builds
them (organization rows first, then animal rows). -/
def rowsOf (orgData animalData : JVal) :
    Except PErr (List OrgRow × List AnimalRow) := do
  let orgs ← pyIter orgData
  let orgRows ← orgs.mapM buildOrgRow
  let animals ← pyIter animalData
  let animalRows ← animals.mapM buildAnimalRow
  pure (orgRows, animalRows)

theorem foldlM_upsert_eq {ρ : Type} (key : ρ → JVal)
    (build : JVal → Except PErr ρ) :
    ∀ (xs : List JVal) (t : List ρ),
      xs.foldlM (fun t o => do pure (upsertRow key t (← build o))) t =
        match xs.mapM build with
        | .ok rows => .ok (upsertAll key t rows)
        | .error e => .error e := by
  intro xs
  induction xs with
  | nil => intro t; rfl
  | cons x xs ih =>
    intro t
    rw [List.foldlM_cons, List.mapM_cons]
    cases hb : build x with
    | error e => rfl
    | ok r =>
      simp only [ok_bind, pure_bind_except]
      rw [ih (upsertRow key t r)]
      cases hm : xs.mapM build with
      | error e => rfl
      | ok rows =>
        exact congrArg Except.ok (upsertAll_cons key t r rows).symm

theorem runImport_eq (orgData animalData : JVal) (db : DB) :
    runImport orgData animalData db =
      match rowsOf orgData animalData with
      | .ok (ors, ars) => .ok ⟨upsertAll OrgRow.id db.organizations ors,
                               upsertAll AnimalRow.id db.animals ars⟩
      | .error e => .error e := by
  rw [runImport, rowsOf]
  cases ho : pyIter orgData with
  | error e => rfl
  | ok orgs =>
    simp only [ok_bind]
    rw [foldlM_upsert_eq OrgRow.id buildOrgRow orgs db.organizations]
    cases hrows : orgs.mapM buildOrgRow with
    | error e => rfl
    | ok ors =>
      simp only [ok_bind]
      cases ha : pyIter animalData with
      | error e => rfl
      | ok animals =>
        simp only [ok_bind]
        rw [foldlM_upsert_eq AnimalRow.id buildAnimalRow animals db.animals]
        cases animals.mapM buildAnimalRow with
        | error e => rfl
        | ok ars => rfl

/-- C9: `import_to_db` fails with the spec's `MissingInputError`
(Python `FileNotFoundError`) when either snapshot path does not exist,
and the batch is transactional: on any error the store is unchanged, and
on success the final state is exactly the store with every organization
row upserted and then every animal row upserted. -/
theorem claim_C9_missing_input_and_transactional
    (animalFile orgFile : Option JVal) (db : DB) :
    ((animalFile = none ∨ orgFile = none) →
      import_to_db animalFile orgFile db = (.error .missingInput, db))
    ∧ (∀ e, (import_to_db animalFile orgFile db).1 = .error e →
        (import_to_db animalFile orgFile db).2 = db)
    ∧ (∀ ad od, animalFile = some ad → orgFile = some od →
        (import_to_db animalFile orgFile db).1 = .ok () →
        ∃ ors ars, rowsOf od ad = .ok (ors, ars) ∧
          (import_to_db animalFile orgFile db).2 =
            ⟨upsertAll OrgRow.id db.organizations ors,
             upsertAll AnimalRow.id db.animals ars⟩) := by
  refine ⟨?_, ?_, ?_⟩
  · rintro (rfl | rfl)
    · rfl
    · cases animalFile <;> rfl
  · intro e he
    cases animalFile with
    | none => rfl
    | some ad =>
      cases orgFile with
      | none => rfl
      | some od =>
        cases hri : runImport od ad db with
        | error e' =>
          have h1 : import_to_db (some ad) (some od) db = (.error e', db) := by
            rw [import_to_db, hri]
          rw [h1]
        | ok db' =>
          have h1 : import_to_db (some ad) (some od) db = (.ok (), db') := by
            rw [import_to_db, hri]
          rw [h1] at he
          exact absurd he (by simp)
  · intro ad od hA hO hok
    subst hA
    subst hO
    cases hrows : rowsOf od ad with
    | error e =>
      have h1 : import_to_db (some ad) (some od) db = (.error e, db) := by
        rw [import_to_db, runImport_eq od ad db, hrows]
      rw [h1] at hok
      exact absurd hok (by simp)
    | ok p =>
      obtain ⟨ors, ars⟩ := p
      have h1 : import_to_db (some ad) (some od) db =
          (.ok (), ⟨upsertAll OrgRow.id db.organizations ors,
            upsertAll AnimalRow.id db.animals ars⟩) := by
        rw [import_to_db, runImport_eq od ad db, hrows]
      rw [h1]
      exact ⟨ors, ars, rfl, rfl⟩

/-- C7 as stated: importing the same pair of snapshot files twice leaves
the store in the same final state as importing it once, with no
hypothesis on the records. -/
def claimC7Statement : Prop :=
  ∀ (animalFile orgFile : Option JVal) (db : DB),
    import_to_db animalFile orgFile (import_to_db animalFile orgFile db).2 =
      import_to_db animalFile orgFile db

/-- C7 counterexample: an organization record with no `id` yields a row
with a NULL primary key; SQLite NULL primary keys never conflict, so the
upsert inserts a fresh duplicate row on every import and importing the
snapshot twice leaves two rows where one import leaves one. -/
theorem claim_C7_counterexample : ¬ claimC7Statement := by
  intro h
  have hc := h (some (.list [])) (some (.list [.obj []])) ⟨[], []⟩
  exact absurd hc (by decide)

/-- Every row key of the import batches is non-null (vacuously true when
the batch itself fails to build or a file is missing). -/
def importedRowsOk (animalFile orgFile : Option JVal) : Bool :=
  match animalFile, orgFile with
  | some ad, some od =>
    match rowsOf od ad with
    | .ok (ors, ars) =>
      ors.all (fun r => r.id != JVal.null) && ars.all (fun r => r.id != JVal.null)
    | .error _ => true
  | _, _ => true

/-- C7 amended: importing the same pair of snapshot files twice leaves
the store in the same final state as importing it once, provided every
imported record's identifier is non-null (rows are keyed by identifier
and every field matches the latest import; null identifiers are the one
exception, because SQLite NULL primary keys never conflict and such rows
duplicate). -/
theorem claim_C7_import_idempotent (animalFile orgFile : Option JVal) (db : DB)
    (hk : importedRowsOk animalFile orgFile = true) :
    import_to_db animalFile orgFile (import_to_db animalFile orgFile db).2 =
      import_to_db animalFile orgFile db := by
  cases animalFile with
  | none => rfl
  | some ad =>
    cases orgFile with
    | none => rfl
    | some od =>
      rw [importedRowsOk] at hk
      cases hrows : rowsOf od ad with
      | error e =>
        have h1 : import_to_db (some ad) (some od) db = (.error e, db) := by
          rw [import_to_db, runImport_eq od ad db, hrows]
        rw [h1]
        exact h1
      | ok p =>
        obtain ⟨ors, ars⟩ := p
        rw [hrows] at hk
        rw [Bool.and_eq_true, List.all_eq_true, List.all_eq_true] at hk
        obtain ⟨hko, hka⟩ := hk
        have h1 : import_to_db (some ad) (some od) db =
            (.ok (), ⟨upsertAll OrgRow.id db.organizations ors,
              upsertAll AnimalRow.id db.animals ars⟩) := by
          rw [import_to_db, runImport_eq od ad db, hrows]
        have ho : upsertAll OrgRow.id
            (upsertAll OrgRow.id db.organizations ors) ors =
            upsertAll OrgRow.id db.organizations ors :=
          upsertAll_idem OrgRow.id ors db.organizations
            fun r hr => bne_iff_ne.mp (hko r hr)
        have ha : upsertAll AnimalRow.id
            (upsertAll AnimalRow.id db.animals ars) ars =
            upsertAll AnimalRow.id db.animals ars :=
          upsertAll_idem AnimalRow.id ars db.animals
            fun r hr => bne_iff_ne.mp (hka r hr)
        have h2 : import_to_db (some ad) (some od)
            (⟨upsertAll OrgRow.id db.organizations ors,
              upsertAll AnimalRow.id db.animals ars⟩ : DB) =
            (.ok (), ⟨upsertAll OrgRow.id db.organizations ors,
              upsertAll AnimalRow.id db.animals ars⟩) := by
          rw [import_to_db, runImport_eq od ad _, hrows]
          simp only [ho, ha]
        rw [h1]
        exact h2

theorem claim_C7_witness :
    import_to_db (some (.list [])) (some (.list [.obj [("id", .str "X")]]))
      (import_to_db (some (.list []))
        (some (.list [.obj [("id", .str "X")]])) ⟨[], []⟩).2 =
    import_to_db (some (.list [])) (some (.list [.obj [("id", .str "X")]]))
      ⟨[], []⟩ :=
  claim_C7_import_idempotent _ _ _ (by decide)

theorem claim_C9_witness :
    import_to_db none (some (.list [])) ⟨[], []⟩ =
      (.error .missingInput, (⟨[], []⟩ : DB))
    ∧ (import_to_db (some (.int 0)) (some (.int 0)) ⟨[], []⟩).2 =
      (⟨[], []⟩ : DB) := by
  have h1 := (claim_C9_missing_input_and_transactional none
    (some (.list [])) ⟨[], []⟩).1 (Or.inl rfl)
  have h2 := (claim_C9_missing_input_and_transactional (some (.int 0))
    (some (.int 0)) ⟨[], []⟩).2.1 .typeError (by rfl)
  exact ⟨h1, h2⟩

theorem pyIsTrue_one_iff (v : JVal) : pyIsTrue v = .int 1 ↔ v = .bool true := by
  rw [pyIsTrue]
  by_cases h : v = .bool true
  · simp [h]
  · simp [h]

theorem pyIsTrue_zero_or_one (v : JVal) :
    pyIsTrue v = .int 1 ∨ pyIsTrue v = .int 0 := by
  rw [pyIsTrue]
  by_cases h : v = .bool true
  · left; simp [h]
  · right; simp [h]

theorem strList?_map_str : ∀ l : List String,
    strList? (l.map JVal.str) = some l := by
  intro l
  induction l with
  | nil => rfl
  | cons s rest ih =>
    rw [List.map_cons]
    simp only [strList?, ih]

/-- C6: in the animal row written by `import_to_db`, the boolean-valued
source fields (`mixed`, `spayed_neutered`, `house_trained`,
`special_needs`, `shots_current`) are coerced to 0/1 via `int(...)`;
each tri-state environment flag (`children`, `dogs`, `cats`) becomes 1
exactly when its value is strictly `True` and 0 otherwise (false and
unknown/null both give 0, via `int(... is True)`); and the tag list is
flattened to a comma-joined string. -/
theorem claim_C6_row_coercions
    (kvs bk ak ek : List (String × JVal)) (tstrs : List String)
    (mb sb hb spb shb : Bool)
    (hbreeds : kvs.lookup "breeds" = some (.obj bk))
    (hmixed : (bk.lookup "mixed").getD (.bool false) = .bool mb)
    (hattrs : kvs.lookup "attributes" = some (.obj ak))
    (hsp : (ak.lookup "spayed_neutered").getD (.bool false) = .bool sb)
    (hht : (ak.lookup "house_trained").getD (.bool false) = .bool hb)
    (hsn : (ak.lookup "special_needs").getD (.bool false) = .bool spb)
    (hsc : (ak.lookup "shots_current").getD (.bool false) = .bool shb)
    (henv : kvs.lookup "environment" = some (.obj ek))
    (htags : kvs.lookup "tags" = some (.list (tstrs.map JVal.str))) :
    ∃ row, buildAnimalRow (.obj kvs) = .ok row
      ∧ row.mixed = .int (if mb then 1 else 0)
      ∧ row.spayed_neutered = .int (if sb then 1 else 0)
      ∧ row.house_trained = .int (if hb then 1 else 0)
      ∧ row.special_needs = .int (if spb then 1 else 0)
      ∧ row.shots_current = .int (if shb then 1 else 0)
      ∧ (row.environment_children = .int 1 ↔ lookupJ ek "children" = .bool true)
      ∧ (row.environment_children = .int 1 ∨ row.environment_children = .int 0)
      ∧ (row.environment_dogs = .int 1 ↔ lookupJ ek "dogs" = .bool true)
      ∧ (row.environment_dogs = .int 1 ∨ row.environment_dogs = .int 0)
      ∧ (row.environment_cats = .int 1 ↔ lookupJ ek "cats" = .bool true)
      ∧ (row.environment_cats = .int 1 ∨ row.environment_cats = .int 0)
      ∧ row.tags = .str (String.intercalate ", " tstrs) := by
  refine ⟨⟨lookupJ kvs "id", lookupJ kvs "name", lookupJ kvs "type",
    lookupJ kvs "species", lookupJ bk "primary", lookupJ bk "secondary",
    .int (if mb then 1 else 0), lookupJ kvs "age", lookupJ kvs "gender",
    lookupJ kvs "size", lookupJ kvs "coat", .int (if sb then 1 else 0),
    .int (if hb then 1 else 0), .int (if spb then 1 else 0),
    .int (if shb then 1 else 0), pyIsTrue (lookupJ ek "children"),
    pyIsTrue (lookupJ ek "dogs"), pyIsTrue (lookupJ ek "cats"),
    .str (String.intercalate ", " tstrs), lookupJ kvs "description",
    lookupJ kvs "primary_photo", lookupJ kvs "status",
    lookupJ kvs "published_at", lookupJ kvs "status_changed_at",
    lookupJ kvs "organization_id", lookupJ kvs "url"⟩,
    ?_, rfl, rfl, rfl, rfl, rfl,
    pyIsTrue_one_iff _, pyIsTrue_zero_or_one _,
    pyIsTrue_one_iff _, pyIsTrue_zero_or_one _,
    pyIsTrue_one_iff _, pyIsTrue_zero_or_one _, rfl⟩
  rw [buildAnimalRow]
  simp only [pyGet, pyGetD, bind, Except.bind]
  simp only [hbreeds, hattrs, henv, htags, Option.getD_some]
  simp only [hmixed, hsp, hht, hsn, hsc, pyInt, pyJoinTags, strList?_map_str]
  simp only [lookupJ, pure, Except.pure]

def exAnimalC6 : List (String × JVal) := [
  ("id", .int 1),
  ("breeds", .obj [("primary", .str "Lab"), ("secondary", .null),
    ("mixed", .bool true)]),
  ("attributes", .obj [("spayed_neutered", .bool false),
    ("house_trained", .bool true), ("special_needs", .bool false),
    ("shots_current", .bool true)]),
  ("environment", .obj [("children", .bool true), ("dogs", .bool false),
    ("cats", .null)]),
  ("tags", .list [.str "friendly", .str "cute"])]

theorem claim_C6_witness :
    ∃ row, buildAnimalRow (.obj exAnimalC6) = .ok row
      ∧ row.mixed = .int 1
      ∧ row.spayed_neutered = .int 0
      ∧ row.house_trained = .int 1
      ∧ row.environment_children = .int 1
      ∧ row.environment_dogs = .int 0
      ∧ row.environment_cats = .int 0
      ∧ row.tags = .str "friendly, cute" := by
  obtain ⟨row, h0, h1, h2, h3, _, _, hc1, _, hd1, hd2, ht1, ht2, htg⟩ :=
    claim_C6_row_coercions exAnimalC6
      [("primary", .str "Lab"), ("secondary", .null), ("mixed", .bool true)]
      [("spayed_neutered", .bool false), ("house_trained", .bool true),
        ("special_needs", .bool false), ("shots_current", .bool true)]
      [("children", .bool true), ("dogs", .bool false), ("cats", .null)]
      ["friendly", "cute"] true false true false true
      (by decide) (by decide) (by decide) (by decide) (by decide) (by decide)
      (by decide) (by decide) (by decide)
  refine ⟨row, h0, by simpa using h1, by simpa using h2, by simpa using h3,
    hc1.mpr (by decide), ?_, ?_, htg⟩
  · rcases hd2 with h | h
    · exact absurd (hd1.mp h) (by decide)
    · exact h
  · rcases ht2 with h | h
    · exact absurd (ht1.mp h) (by decide)
    · exact h

end Petfinder
